import Mathlib

/-!
# mdio.c: register descriptors, bit fields and command dispatch

A shallow embedding of `src/mdio.c`.

* C strings are lists of characters (the bytes before the terminating NUL);
  a `char *` into a string is the suffix that starts at the pointed byte, so
  `*ptr == '\0'` is `ptr = []` and two pointers into the same string are equal
  exactly when the suffixes have the same length.
* `int` is `Int`, `uint16_t` and `unsigned long` are `Nat` reduced modulo
  `2 ^ 16` and `2 ^ 64` wherever the C code truncates.
* The MDIO transport (`ioctl` on a socket) is a record of fallible operations;
  the simulated transport is a register map on which every access succeeds.
-/

namespace Mdio

/-! ## Machine integers -/

/-- Conversion to `uint16_t`. -/
def u16 (x : Nat) : Nat := x % 2 ^ 16

/-- Conversion to `uint8_t`. -/
def u8 (x : Int) : Nat := (x % 2 ^ 8).toNat

/-- Two's complement bit pattern of a 32-bit `int`. -/
def bits32 (x : Int) : Nat := (x % 2 ^ 32).toNat

/-- The `int` whose 32-bit pattern is `w` (conversion of a wider unsigned value
to `int` keeps the low 32 bits). -/
def toInt32 (w : Nat) : Int :=
  if w % 2 ^ 32 < 2 ^ 31 then ((w % 2 ^ 32 : Nat) : Int) else ((w % 2 ^ 32 : Nat) : Int) - 2 ^ 32

/-- Conversion of an `int` to `unsigned long` (64 bits). -/
def toULong (x : Int) : Nat := (x % 2 ^ 64).toNat

/-- Bitwise complement `~x` of a 32-bit pattern. -/
def not32 (x : Nat) : Nat := 2 ^ 32 - 1 - x % 2 ^ 32

/-- The C constant `ULONG_MAX`, which is also `~0UL`. -/
def ULONG_MAX : Nat := 2 ^ 64 - 1

/-- The macro `BITS_PER_LONG`: `sizeof(long) << 3` with an 8-byte `long`. -/
def BITS_PER_LONG : Nat := 8 <<< 3

/-! ## Bit fields (`GENMASK` and its uses in `main`) -/

/-- The macro `GENMASK(h, l)`:
`((~0UL) - (1UL << (l)) + 1) & (~0UL >> (BITS_PER_LONG - 1 - (h)))`
in `unsigned long` arithmetic, for shift counts below 64. -/
def GENMASK (h l : Nat) : Nat :=
  (((ULONG_MAX + 2 ^ 64 - (1 <<< l) % 2 ^ 64) % 2 ^ 64 + 1) % 2 ^ 64)
    &&& (ULONG_MAX >>> (BITS_PER_LONG - 1 - h))

/-- The statement `mask = GENMASK(ri.bit_h, ri.bit_l);` with `uint16_t mask`. -/
def mask16 (h l : Nat) : Nat := u16 (GENMASK h l)

/-- The read-modify-write composition of `main`:
`mask = GENMASK(bit_h, bit_l); data &= ~mask; data |= (ri.data << ri.bit_l) & mask;`
where `data` is the `uint16_t` just read and `new` is the `int` `ri.data`. -/
def composeWrite (data : Nat) (new : Int) (h l : Nat) : Nat :=
  let mask := mask16 h l
  let data := u16 (data &&& not32 mask)
  u16 (data ||| (((bits32 new <<< l) % 2 ^ 32) &&& mask))

/-- The field extraction of `main`:
`mask = GENMASK(bit_h, bit_l); part = (data & mask) >> ri.bit_l;` with
`uint16_t part`. -/
def extractField (data : Nat) (h l : Nat) : Nat :=
  let mask := mask16 h l
  u16 ((data &&& mask) >>> l)

/-! ## C library string functions

`strtoul`, `strchr` and `strpbrk` belong to the C library, not to `mdio.c`;
they are written here after ISO C (C locale).  `strcmp(a, b) == 0` is equality
of the two lists. -/

/-- The C library `isspace` in the C locale. -/
def isspace (c : Char) : Bool :=
  c = ' ' || c = '\t' || c = '\n' || c = '\x0b' || c = '\x0c' || c = '\r'

/-- Value of a character read as a digit by `strtoul`: `0`..`9`, then the
letters of either case for 10..35. -/
def digitVal (c : Char) : Option Nat :=
  if '0'.toNat ≤ c.toNat ∧ c.toNat ≤ '9'.toNat then some (c.toNat - '0'.toNat)
  else if 'a'.toNat ≤ c.toNat ∧ c.toNat ≤ 'z'.toNat then some (c.toNat - 'a'.toNat + 10)
  else if 'A'.toNat ≤ c.toNat ∧ c.toNat ≤ 'Z'.toNat then some (c.toNat - 'A'.toNat + 10)
  else none

/-- A character is a digit of `base` when its digit value is below `base`. -/
def digitOf (base : Nat) (c : Char) : Option Nat :=
  match digitVal c with
  | some d => if d < base then some d else none
  | none => none

/-- The digit loop of `strtoul`: consume the longest run of digits of `base`,
accumulating the (unbounded) value; returns it with the unread suffix. -/
def scanDigits (base : Nat) : Nat → List Char → Nat × List Char
  | acc, [] => (acc, [])
  | acc, c :: cs =>
    match digitOf base c with
    | some d => scanDigits base (acc * base + d) cs
    | none => (acc, c :: cs)

/-- The optional sign of a `strtoul` subject: whether it is `-`, and the suffix
after it. -/
def scanSign : List Char → Bool × List Char
  | '-' :: t => (true, t)
  | '+' :: t => (false, t)
  | s => (false, s)

/-- The radix `strtoul` uses and the suffix at which the digits start: for base
16 or 0 a `0x`/`0X` that is followed by a hexadecimal digit is skipped; base 0
then picks 8 after a leading `0` and 10 otherwise. -/
def scanRadix (base : Nat) (s : List Char) : Nat × List Char :=
  match s with
  | '0' :: x :: d :: t =>
    if (base = 0 ∨ base = 16) ∧ (x = 'x' ∨ x = 'X') ∧ (digitOf 16 d).isSome then (16, d :: t)
    else if base = 0 then (8, s)
    else (base, s)
  | '0' :: _ => if base = 0 then (8, s) else (base, s)
  | _ => if base = 0 then (10, s) else (base, s)

/-- The C library `strtoul(s, &endptr, base)` for `base` 0 or 2..36: skip white
space, an optional sign and an optional radix prefix, then read digits.  The
result is the value and `endptr`.  Without a digit nothing is converted and
`endptr` is `s`; a value above `ULONG_MAX` gives `ULONG_MAX`; a `-` negates in
`unsigned long`. -/
def strtoul (s : List Char) (base : Nat) : Nat × List Char :=
  let sg := scanSign (s.dropWhile isspace)
  let pf := scanRadix base sg.2
  match pf.2 with
  | [] => (0, s)
  | c :: _ =>
    if (digitOf pf.1 c).isSome then
      let r := scanDigits pf.1 0 pf.2
      let v := if r.1 > ULONG_MAX then ULONG_MAX
        else if sg.1 then (2 ^ 64 - r.1) % 2 ^ 64 else r.1
      (v, r.2)
    else (0, s)

/-- The C library `strchr(s, c)` for `c` other than NUL: the suffix at the first
occurrence of `c`, or `none` for `NULL`. -/
def strchr : List Char → Char → Option (List Char)
  | [], _ => none
  | x :: xs, c => if x = c then some (x :: xs) else strchr xs c

/-- The C library `strpbrk(s, accept)`: the suffix at the first character of
`s` that occurs in `accept`, or `none` for `NULL`. -/
def strpbrk : List Char → List Char → Option (List Char)
  | [], _ => none
  | x :: xs, accept => if x ∈ accept then some (x :: xs) else strpbrk xs accept

/-! ## Register descriptors -/

/-- The C `struct reg_info`. -/
structure reg_info where
  is_c22 : Int
  is_write : Int
  phy : Int
  page : Int
  dev : Int
  reg : Int
  bit_h : Int
  bit_l : Int
  data : Int
  deriving DecidableEq

/-- The function `get_number(s, end, base, data, key, min, max)`: the result is
the return value and the content of `*data` afterwards (`old` when it is not
stored to).  The diagnostics it prints (the only use of `key`) are left out.
`endptr` and `end` point into the string of `s`, so they are compared by the
length of their suffixes. -/
def get_number (s end_ : List Char) (base : Nat) (old : Int) (min max : Int) : Int × Int :=
  let r := strtoul s base
  if r.2.length = s.length then (-1, old)
  else if r.2.length ≠ end_.length then (-1, old)
  else if r.1 < toULong min ∨ r.1 > toULong max then (-1, old)
  else (0, toInt32 r.1)

/-- The function `parse_c45_reg(regstr, ri)`: return value and `*ri` afterwards. -/
def parse_c45_reg (regstr : List Char) (ri : reg_info) : Int × reg_info :=
  let base := regstr
  match strchr base '.' with
  | none => (-1, ri)
  | some ptr =>
    let n := get_number base ptr 16 ri.phy 0 0x1f
    let ri := { ri with phy := n.2 }
    if n.1 ≠ 0 then (-1, ri) else
    let base := ptr.tail
    match strchr base '_' with
    | none => (-1, ri)
    | some ptr =>
      let n := get_number base ptr 16 ri.dev 0 0x1f
      let ri := { ri with dev := n.2 }
      if n.1 ≠ 0 then (-1, ri) else
      let base := ptr.tail
      let ptr := (strchr base '.').getD []
      let n := get_number base ptr 16 ri.reg 0x0 0xffff
      let ri := { ri with reg := n.2 }
      if n.1 ≠ 0 then (-1, ri) else
      if ptr = [] then (0, ri) else
      let base := ptr.tail
      let ptr := (strchr base ':').getD []
      let n := get_number base ptr 10 ri.bit_h 0 15
      let ri := { ri with bit_h := n.2 }
      if n.1 ≠ 0 then (-1, ri) else
      if ptr = [] then (0, { ri with bit_l := ri.bit_h }) else
      let base := ptr.tail
      let ptr : List Char := []
      let n := get_number base ptr 10 ri.bit_l 0 15
      let ri := { ri with bit_l := n.2 }
      if n.1 ≠ 0 then (-1, ri) else
      if ri.bit_h < ri.bit_l then (-1, ri) else
      (0, ri)

/-- The part of `parse_c22_reg` from `base = ptr + 1; ptr = strchr(base, ':');`
to the end: the bit clause. -/
def parse_c22_bits (ptr : List Char) (ri : reg_info) : Int × reg_info :=
  let base := ptr.tail
  let ptr := (strchr base ':').getD []
  let n := get_number base ptr 10 ri.bit_h 0 31
  let ri := { ri with bit_h := n.2 }
  if n.1 ≠ 0 then (-1, ri) else
  if ptr = [] then (0, { ri with bit_l := ri.bit_h }) else
  let base := ptr.tail
  let ptr : List Char := []
  let n := get_number base ptr 10 ri.bit_l 0 31
  let ri := { ri with bit_l := n.2 }
  if n.1 ≠ 0 then (-1, ri) else
  (0, ri)

/-- The function `parse_c22_reg(regstr, ri)`: return value and `*ri` afterwards. -/
def parse_c22_reg (regstr : List Char) (ri : reg_info) : Int × reg_info :=
  let base := regstr
  match strchr base '.' with
  | none => (-1, ri)
  | some ptr =>
    let n := get_number base ptr 16 ri.phy 0 0x1f
    let ri := { ri with phy := n.2 }
    if n.1 ≠ 0 then (-1, ri) else
    let base := ptr.tail
    let ptr := (strpbrk base ['_', '.']).getD []
    let n := get_number base ptr 10 ri.reg 0 31
    let ri := { ri with reg := n.2 }
    if n.1 ≠ 0 then (-1, ri) else
    if ptr = [] then (0, ri) else
    if ptr.head? = some '_' then
      let base := ptr.tail
      let ptr := (strchr base '.').getD []
      let n := get_number base ptr 10 ri.page 0 255
      let ri := { ri with page := n.2 }
      if n.1 ≠ 0 then (-1, ri) else
      if ptr = [] then (0, ri) else
      parse_c22_bits ptr ri
    else
      parse_c22_bits ptr ri

/-- The function `init_reg_info`: `memset` to zero, then `page`, `bit_h` and
`bit_l` set to -1.  It overwrites the whole structure, so it is a constant. -/
def init_reg_info : reg_info :=
  { is_c22 := 0, is_write := 0, phy := 0, page := -1, dev := 0, reg := 0,
    bit_h := -1, bit_l := -1, data := 0 }

/-- Hexadecimal digits of a number, lower case and without prefix, as the
`%x` conversion prints them. -/
def hex (n : Nat) : List Char := Nat.toDigits 16 n

/-- Decimal digits of a number. -/
def decimal (n : Nat) : List Char := Nat.toDigits 10 n

/-! ## Descriptor strings (specification side) -/

/-- Value of a digit string read left to right in `base`, from accumulator `acc`. -/
def valOf (base : Nat) (acc : Nat) (ds : List Char) : Nat :=
  ds.foldl (fun a c => a * base + (digitVal c).getD 0) acc

/-- `ds` is a non-empty string of digits of `base` whose value is `n`. -/
def IsNumeral (base : Nat) (ds : List Char) (n : Nat) : Prop :=
  ds ≠ [] ∧ (∀ c ∈ ds, (digitOf base c).isSome = true) ∧ valOf base 0 ds = n

/-- `rest` is empty or starts with one of the separators of a descriptor. -/
def SepHead (rest : List Char) : Prop :=
  ∀ c, rest.head? = some c → c = '.' ∨ c = '_' ∨ c = ':'


/-! ## Binary rendering -/

/-- The function `get_space_index(hi, li, idx)`: the return value and the
entries it stores in the `uint8_t` array `idx`, from `idx[0]` on. -/
def get_space_index (hi li : Int) : Int × List Nat :=
  let width := hi - li + 1
  if width ≤ 4 then (0, [])
  else if width ≤ 8 then (1, [u8 (li + 4)])
  else if width ≤ 12 then (2, [u8 (li + 8), u8 (li + 4)])
  else (3, [u8 (li + 12), u8 8, u8 4])

/-- The expression `(val & (1 << i)) ? '1' : '0'` of `bin2str`, for a bit index
`0 ≤ i < 32` (`val` is a `uint16_t` promoted to `int`). -/
def bitChar (val : Nat) (i : Int) : Char :=
  if val &&& ((1 <<< i.toNat) % 2 ^ 32) ≠ 0 then '1' else '0'

/-- The `for` loop of `bin2str` with its loop state `i`, `sc`, `sci`: the
characters it stores through `p`.  The first argument bounds the number of
iterations. -/
def bin2str_loop (val : Nat) (li : Int) (idx : List Nat) :
    Nat → Int → Int → Nat → List Char
  | 0, _, _, _ => []
  | n + 1, i, sc, sci =>
    if i ≥ li then
      if sc ≠ 0 ∧ i = ((idx.getD sci 0 : Nat) : Int) then
        bitChar val i :: ' ' :: bin2str_loop val li idx n (i - 1) (sc - 1) (sci + 1)
      else
        bitChar val i :: bin2str_loop val li idx n (i - 1) sc sci
    else []

/-- The function `bin2str(val, buf, hi, li)`: the string left in `buf`.  The
loop runs `i` from `hi` down to `li`, which is `hi - li + 1` iterations (none
when `hi < li`).  `idx[sci]` is read only while `sc` is nonzero, that is, at
an index `get_space_index` has stored to. -/
def bin2str (val : Nat) (hi li : Int) : List Char :=
  let s := get_space_index hi li
  bin2str_loop val li s.2 (hi - li + 1).toNat hi s.1 0

/-! ## Transport and command dispatch -/

/-- The MDIO transport behind `mdio_sock_create`, `mdio_sock_read` and
`mdio_sock_write`: the socket and its two `ioctl` requests.  `none` is the
failure of the call. -/
structure Transport (σ : Type) where
  create : List Char → Option σ
  read : σ → Nat → Nat → Option Nat
  write : σ → Nat → Nat → Nat → Option σ

/-- Conversion of an `int` to `uint16_t` (the `__u16` fields of
`struct mii_ioctl_data` and the `uint16_t` parameters). -/
def u16i (x : Int) : Nat := (x % 2 ^ 16).toNat

/-- The function `mdio_sock_read(sock, phy, reg, &val)`: `none` when it returns
-1, else the value stored in `*val`. -/
def mdio_sock_read {σ : Type} (t : Transport σ) (sock : σ) (phy reg : Int) : Option Nat :=
  (t.read sock (u16i phy) (u16i reg)).map u16

/-- The function `mdio_sock_write(sock, phy, reg, val)`: `none` when it returns
-1, else the device afterwards. -/
def mdio_sock_write {σ : Type} (t : Transport σ) (sock : σ) (phy reg : Int) (val : Nat) :
    Option σ :=
  t.write sock (u16i phy) (u16i reg) (u16 val)

/-- The Linux header function `mdio_phy_id_c45(prtad, devad)` of
`<linux/mdio.h>`: `MDIO_PHY_ID_C45 | (prtad << 5) | devad` as a `__u16`, with
`MDIO_PHY_ID_C45 = 0x8000`. -/
def mdio_phy_id_c45 (prtad devad : Int) : Int :=
  ((u16 (0x8000 ||| ((bits32 prtad <<< 5) % 2 ^ 32) ||| bits32 devad) : Nat) : Int)

/-- The function `parse_reg_info(argc, argv, ri)`: return value and `*ri`
afterwards.  A missing `argv` entry reads as the empty string; `main` calls
it only with `argc ≥ 5`, and with `argc ≥ 6` for `write`. -/
def parse_reg_info (argv : List (List Char)) : Int × reg_info :=
  let ri := init_reg_info
  let ri := if argv.getD 1 [] = "c22".toList then { ri with is_c22 := 1 } else ri
  let w : Int × reg_info :=
    if argv.getD 2 [] = "write".toList then
      let base := argv.getD 5 []
      let ptr : List Char := []
      let ri := { ri with is_write := 0 }
      let n := get_number base ptr 0 ri.data 0 0xffff
      (n.1, { ri with data := n.2 })
    else (0, ri)
  if w.1 ≠ 0 then (-1, w.2)
  else if w.2.is_c22 ≠ 0 then parse_c22_reg (argv.getD 4 []) w.2
  else parse_c45_reg (argv.getD 4 []) w.2

/-- What a run of `main` leaves behind: the exit status, the line the read
branch prints on standard output (usage text and diagnostics are left out) and
the device, when it was opened. -/
structure Outcome (σ : Type) where
  status : Int
  stdout : List Char
  dev : Option σ

/-- The output `printf("%x \"%s\"\n", part, buf)` of the read branch. -/
def print_read (part : Nat) (buf : List Char) : List Char :=
  hex part ++ " \"".toList ++ buf ++ "\"\n".toList

/-- The function `main` (the build without `API_TEST`) over a transport. -/
def main {σ : Type} (t : Transport σ) (argv : List (List Char)) : Outcome σ :=
  let argc := argv.length
  if argc < 5 then ⟨1, [], none⟩
  else if argv.getD 1 [] ≠ "c22".toList ∧ argv.getD 1 [] ≠ "c45".toList then ⟨1, [], none⟩
  else if argv.getD 2 [] ≠ "read".toList ∧ argv.getD 2 [] ≠ "write".toList then ⟨1, [], none⟩
  else if argv.getD 2 [] = "write".toList ∧ argc < 6 then ⟨1, [], none⟩
  else
    let pr := parse_reg_info argv
    if pr.1 ≠ 0 then ⟨1, [], none⟩ else
    let ri := pr.2
    match t.create (argv.getD 3 []) with
    | none => ⟨2, [], none⟩
    | some mdio =>
      match (if ri.page ≥ 0 then mdio_sock_write t mdio ri.phy 22 (u16i ri.page)
             else some mdio) with
      | none => ⟨3, [], some mdio⟩
      | some mdio =>
        let phy := if ri.is_c22 ≠ 0 then ri.phy else mdio_phy_id_c45 ri.phy ri.dev
        if ri.is_write ≠ 0 then
          let data : Option Nat :=
            if ri.bit_h ≥ 0 then
              (mdio_sock_read t mdio phy ri.reg).map
                (fun data => composeWrite data ri.data ri.bit_h.toNat ri.bit_l.toNat)
            else some (u16i ri.data)
          match data with
          | none => ⟨3, [], some mdio⟩
          | some data =>
            match mdio_sock_write t mdio phy ri.reg data with
            | none => ⟨3, [], some mdio⟩
            | some mdio => ⟨0, [], some mdio⟩
        else
          match mdio_sock_read t mdio phy ri.reg with
          | none => ⟨3, [], some mdio⟩
          | some data =>
            if ri.bit_h ≥ 0 then
              ⟨0, print_read (extractField data ri.bit_h.toNat ri.bit_l.toNat)
                    (bin2str data ri.bit_h ri.bit_l), some mdio⟩
            else
              ⟨0, print_read data (bin2str data 15 0), some mdio⟩

/-- A register file: the content of register `reg_num` of `phy_id`. -/
abbrev Regs := Nat → Nat → Nat

/-- The simulated transport: a register file on which every access succeeds. -/
def simTransport (regs : Regs) : Transport Regs where
  create := fun _ => some regs
  read := fun s phy reg => some (s phy reg)
  write := fun s phy reg val => some (fun p r => if p = phy ∧ r = reg then val else s p r)

/-! ## Data model of an accepted descriptor (specification side) -/

/-- The optional bit range of a descriptor: `bit_h` and `bit_l` are both -1
(absent) or both non-negative (present). -/
def BitRangeModel (ri : reg_info) : Prop :=
  (ri.bit_h = -1 ∧ ri.bit_l = -1) ∨ (0 ≤ ri.bit_h ∧ 0 ≤ ri.bit_l)

/-- The Clause-22 variant of the data model: `phy` and `reg` in `0..31`, `page`
absent (-1) or in `0..255`, and an optional bit range. -/
def Clause22Model (ri : reg_info) : Prop :=
  (0 ≤ ri.phy ∧ ri.phy ≤ 31) ∧ (0 ≤ ri.reg ∧ ri.reg ≤ 31) ∧
    (ri.page = -1 ∨ (0 ≤ ri.page ∧ ri.page ≤ 255)) ∧ BitRangeModel ri

/-- The Clause-45 variant of the data model: `phy` and `dev` in `0..31`, `reg`
in `0..65535`, and an optional bit range. -/
def Clause45Model (ri : reg_info) : Prop :=
  (0 ≤ ri.phy ∧ ri.phy ≤ 31) ∧ (0 ≤ ri.dev ∧ ri.dev ≤ 31) ∧
    (0 ≤ ri.reg ∧ ri.reg ≤ 65535) ∧ BitRangeModel ri

/-- The bit indices whose character is immediately followed by a space in a
rendered string whose first character is the one of bit `i`. -/
def spacesAfter : List Char → Int → List Int
  | [], _ => []
  | ' ' :: cs, i => (i + 1) :: spacesAfter cs i
  | _ :: cs, i => spacesAfter cs (i - 1)

/-- The bit indices after which the grouping anchored to `li` puts a space:
those `i` in `li < i ≤ hi` with `i - li` a multiple of 4, highest first. -/
def anchoredSpaces (hi li : Nat) : List Int :=
  (((List.range (hi - li)).map (fun k => hi - k)).filter
    (fun i => (i - li) % 4 = 0)).map (fun i => (i : Int))

/-! ## The subject sequence of `strtoul` (specification side) -/

/-- The radix `strtoul` reads the digits `ds` in, given `base` and the radix
prefix `px` in front of them: the prefix is empty or, for base 16 or 0, `0x` or
`0X`; base 0 reads radix 16 after the prefix, radix 8 when the digits start
with `0`, and radix 10 otherwise. -/
def RadixOf (base : Nat) (px ds : List Char) (radix : Nat) : Prop :=
  (px = [] ∧ base ≠ 0 ∧ radix = base) ∨
  (px = [] ∧ base = 0 ∧ ds.head? = some '0' ∧ radix = 8) ∨
  (px = [] ∧ base = 0 ∧ ds.head? ≠ some '0' ∧ radix = 10) ∨
  ((px = ['0', 'x'] ∨ px = ['0', 'X']) ∧ (base = 0 ∨ base = 16) ∧ radix = 16)

/-- The value `strtoul` returns for a sign `sg` and digits of value `n`:
`ULONG_MAX` when `n` does not fit, the negation in `unsigned long` after `-`,
else `n`. -/
def subjectValue (sg : List Char) (n : Nat) : Nat :=
  if n > ULONG_MAX then ULONG_MAX else if sg = ['-'] then (2 ^ 64 - n) % 2 ^ 64 else n

/-- `sl` is a subject of `strtoul` in `base` with value `v`: optional white
space, an optional sign, an optional radix prefix and a non-empty run of digits
of the radix, with nothing after them. -/
def IsSubject (base : Nat) (sl : List Char) (v : Nat) : Prop :=
  ∃ (ws sg px ds : List Char) (radix n : Nat),
    sl = ws ++ (sg ++ (px ++ ds)) ∧ (∀ c ∈ ws, isspace c = true) ∧
    (sg = [] ∨ sg = ['+'] ∨ sg = ['-']) ∧ RadixOf base px ds radix ∧
    IsNumeral radix ds n ∧ v = subjectValue sg n

/-- `sl` is one unsigned integer numeral in `base` with value `n`: a non-empty run
of digits of the radix, after the radix prefix when there is one, and nothing
else (no white space, no sign). -/
def IsUnsignedNumeral (base : Nat) (sl : List Char) (n : Nat) : Prop :=
  ∃ (px ds : List Char) (radix : Nat),
    sl = px ++ ds ∧ RadixOf base px ds radix ∧ IsNumeral radix ds n

/-! ## The page clause of a Clause-22 descriptor (specification side) -/

/-- What follows the register token of a descriptor: after the first `.`, the
rest of the string from the first `_` or `.` on (empty when there is none). -/
def afterRegToken (s : List Char) : List Char :=
  ((s.dropWhile (fun c => decide (c ≠ '.'))).tail).dropWhile
    (fun c => decide (c ∉ ['_', '.']))

/-- The register token is immediately followed by a `_PAGE` clause. -/
def hasPageClause (s : List Char) : Prop :=
  (afterRegToken s).head? = some '_'

/-! ## Usage text -/

/-- The text the function `usage` prints. -/
def usage : List Char :=
  ("Usage:\n" ++
   "mdio (c22|c45) read IFNAME REGSTR\n" ++
   "mdio (c22|c45) read IFNAME REGSTR DATA\n" ++
   "where\n" ++
   " c22: REGSTR: phy.reg[_page][:bit_h[.bit_l]]\n" ++
   " c45: REGSTR: phy.dev.reg[:bit_h[.bit_l]]\n").toList

/-! # Theorems -/

theorem mask16_eq_aux : ∀ h : Fin 16, ∀ l : Fin 16, l ≤ h →
    mask16 h.val l.val = 2 ^ (h.val + 1) - 2 ^ l.val := by decide

theorem GENMASK_eq_aux : ∀ h : Fin 16, ∀ l : Fin 16, l ≤ h →
    GENMASK h.val l.val = 2 ^ (h.val + 1) - 2 ^ l.val := by decide

theorem mask16_eq {h l : Nat} (hl : l ≤ h) (hh : h ≤ 15) :
    mask16 h l = 2 ^ (h + 1) - 2 ^ l :=
  mask16_eq_aux ⟨h, by omega⟩ ⟨l, by omega⟩ hl

theorem testBit_pow_sub_pow {h l : Nat} (hl : l ≤ h) (i : Nat) :
    (2 ^ (h + 1) - 2 ^ l).testBit i = (decide (l ≤ i) && decide (i ≤ h)) := by
  have e : 2 ^ (h + 1) - 2 ^ l = 2 ^ l * (2 ^ (h + 1 - l) - 1) := by
    rw [Nat.mul_sub, ← pow_add, Nat.mul_one]
    congr 2
    omega
  rw [e, Nat.testBit_mul_pow_two, Nat.testBit_two_pow_sub_one]
  by_cases h1 : l ≤ i <;> by_cases h2 : i ≤ h <;> simp [h1, h2] <;> omega

theorem testBit_mask16 {h l : Nat} (hl : l ≤ h) (hh : h ≤ 15) (i : Nat) :
    (mask16 h l).testBit i = (decide (l ≤ i) && decide (i ≤ h)) := by
  rw [mask16_eq hl hh, testBit_pow_sub_pow hl]

theorem mask16_lt (h l : Nat) : mask16 h l < 2 ^ 16 := by
  unfold mask16 u16
  exact Nat.mod_lt _ (by norm_num)

theorem bits32_natCast (n : Nat) : bits32 (n : Int) = n % 2 ^ 32 := by
  unfold bits32
  omega

theorem testBit_not32 {x : Nat} (hx : x < 2 ^ 32) (i : Nat) :
    (not32 x).testBit i = (decide (i < 32) && !x.testBit i) := by
  unfold not32
  rw [Nat.mod_eq_of_lt hx, Nat.sub_sub, Nat.add_comm 1 x]
  exact Nat.testBit_two_pow_sub_succ hx i

theorem testBit_composeWrite {h l : Nat} (hl : l ≤ h) (hh : h ≤ 15) (old new i : Nat)
    (ho : old < 2 ^ 16) :
    (composeWrite old (new : Int) h l).testBit i =
      if l ≤ i ∧ i ≤ h then new.testBit (i - l) else old.testBit i := by
  have hm : mask16 h l < 2 ^ 32 := lt_trans (mask16_lt h l) (by norm_num)
  have hob : ∀ j, 16 ≤ j → old.testBit j = false := fun j hj =>
    Nat.testBit_lt_two_pow (lt_of_lt_of_le ho (Nat.pow_le_pow_right (by norm_num) hj))
  simp only [composeWrite, u16, bits32_natCast, Nat.testBit_mod_two_pow, Nat.testBit_or,
    Nat.testBit_and, Nat.testBit_shiftLeft, testBit_not32 hm, testBit_mask16 hl hh]
  by_cases h1 : l ≤ i <;> by_cases h2 : i ≤ h <;> by_cases h3 : i < 16 <;>
    by_cases h4 : i < 32 <;> simp [h1, h2, h3, h4] <;> first | omega | skip
  all_goals exact hob i (by omega)

theorem testBit_extractField {h l : Nat} (hl : l ≤ h) (hh : h ≤ 15) (x j : Nat) :
    (extractField x h l).testBit j = (decide (l + j ≤ h) && x.testBit (l + j)) := by
  simp only [extractField, u16, Nat.testBit_mod_two_pow, Nat.testBit_shiftRight,
    Nat.testBit_and, testBit_mask16 hl hh]
  by_cases h1 : l + j ≤ h <;> by_cases h3 : j < 16 <;> simp [h1, h3]
  omega

/-- C1: writing a field with the read-modify-write composition of `main` and
reading it back with the field extraction of `main` yields `new & (mask >> l)`,
which is the low `h - l + 1` bits of `new`. -/
theorem extractField_composeWrite (old new h l : Nat) (ho : old < 2 ^ 16)
    (_hn : new ≤ 0xffff) (hl : l ≤ h) (hh : h ≤ 15) :
    extractField (composeWrite old (new : Int) h l) h l = new &&& (mask16 h l >>> l) ∧
    extractField (composeWrite old (new : Int) h l) h l = new % 2 ^ (h - l + 1) := by
  have key : ∀ j, (extractField (composeWrite old (new : Int) h l) h l).testBit j =
      (decide (j < h - l + 1) && new.testBit j) := by
    intro j
    rw [testBit_extractField hl hh, testBit_composeWrite hl hh old new (l + j) ho]
    by_cases h1 : l + j ≤ h
    · have h2 : j < h - l + 1 := by omega
      simp [h1, h2]
    · have h2 : ¬ j < h - l + 1 := by omega
      simp [h1, h2]
  constructor
  · apply Nat.eq_of_testBit_eq
    intro j
    rw [key, Nat.testBit_and, Nat.testBit_shiftRight, testBit_mask16 hl hh]
    by_cases h1 : j < h - l + 1
    · have h2 : l + j ≤ h := by omega
      simp [h1, h2]
    · have h2 : ¬ l + j ≤ h := by omega
      simp [h1, h2]
  · apply Nat.eq_of_testBit_eq
    intro j
    rw [key, Nat.testBit_mod_two_pow]

/-- The spec example for C1: register `0xfa5a`, field `[12, 8]`, data `0x20b`. -/
theorem extractField_composeWrite_witness :
    (0xfa5a < 2 ^ 16 ∧ 0x20b ≤ 0xffff ∧ 8 ≤ 12 ∧ 12 ≤ 15) ∧
    composeWrite 0xfa5a ((0x20b : Nat) : Int) 12 8 = 0xeb5a ∧
    extractField 0xeb5a 12 8 = 0x0b ∧
    (extractField (composeWrite 0xfa5a ((0x20b : Nat) : Int) 12 8) 12 8
        = 0x20b &&& (mask16 12 8 >>> 8) ∧
      extractField (composeWrite 0xfa5a ((0x20b : Nat) : Int) 12 8) 12 8
        = 0x20b % 2 ^ (12 - 8 + 1)) :=
  ⟨by decide, by decide, by decide,
    extractField_composeWrite 0xfa5a 0x20b 12 8 (by decide) (by decide) (by decide) (by decide)⟩

/-- C2: the read-modify-write composition of `main` leaves every bit outside
`[l, h]` as it was in the old register value. -/
theorem composeWrite_frame (old new h l i : Nat) (ho : old < 2 ^ 16)
    (_hn : new ≤ 0xffff) (hl : l ≤ h) (hh : h ≤ 15) (hi : i < l ∨ h < i) :
    (composeWrite old (new : Int) h l).testBit i = old.testBit i := by
  rw [testBit_composeWrite hl hh old new i ho]
  have : ¬ (l ≤ i ∧ i ≤ h) := by omega
  simp [this]

theorem composeWrite_frame_witness :
    ((0xfa5a < 2 ^ 16 ∧ 0x20b ≤ 0xffff ∧ 8 ≤ 12 ∧ 12 ≤ 15) ∧ (3 < 8 ∨ 12 < 3)) ∧
    (composeWrite 0xfa5a ((0x20b : Nat) : Int) 12 8).testBit 3 = (0xfa5a).testBit 3 :=
  ⟨by decide,
    composeWrite_frame 0xfa5a 0x20b 12 8 3 (by decide) (by decide) (by decide) (by decide)
      (by decide)⟩

theorem mask16_count_aux : ∀ h : Fin 16, ∀ l : Fin 16, l ≤ h →
    ((List.range 16).filter (fun i => (mask16 h.val l.val).testBit i)).length
      = h.val - l.val + 1 := by decide

/-- C3: for `0 ≤ l ≤ h ≤ 15` the 16-bit mask `GENMASK(h, l)` is `2^(h+1) - 2^l`;
bit `i` is set exactly when `l ≤ i ≤ h`, so `h - l + 1` bits are set. -/
theorem GENMASK_bits (h l : Nat) (hl : l ≤ h) (hh : h ≤ 15) :
    mask16 h l = 2 ^ (h + 1) - 2 ^ l ∧
    GENMASK h l = 2 ^ (h + 1) - 2 ^ l ∧
    (∀ i, (mask16 h l).testBit i = true ↔ l ≤ i ∧ i ≤ h) ∧
    ((List.range 16).filter (fun i => (mask16 h l).testBit i)).length = h - l + 1 := by
  refine ⟨mask16_eq hl hh, ?_, ?_, mask16_count_aux ⟨h, by omega⟩ ⟨l, by omega⟩ hl⟩
  · exact GENMASK_eq_aux ⟨h, by omega⟩ ⟨l, by omega⟩ hl
  · intro i
    rw [testBit_mask16 hl hh]
    simp

theorem GENMASK_bits_witness :
    (8 ≤ 12 ∧ 12 ≤ 15) ∧ mask16 12 8 = 0x1f00 ∧
    (mask16 12 8 = 2 ^ (12 + 1) - 2 ^ 8 ∧
    GENMASK 12 8 = 2 ^ (12 + 1) - 2 ^ 8 ∧
    (∀ i, (mask16 12 8).testBit i = true ↔ 8 ≤ i ∧ i ≤ 12) ∧
    ((List.range 16).filter (fun i => (mask16 12 8).testBit i)).length = 12 - 8 + 1) :=
  ⟨by decide, by decide, GENMASK_bits 12 8 (by decide) (by decide)⟩

/-! ## Numerals and `strtoul` -/

theorem digitVal_digitChar : ∀ d : Fin 16, digitVal (Nat.digitChar d.val) = some d.val := by
  decide

theorem digitOf_digitChar {b d : Nat} (hb : b ≤ 16) (hd : d < b) :
    digitOf b (Nat.digitChar d) = some d := by
  have := digitVal_digitChar ⟨d, by omega⟩
  simp only at this
  simp [digitOf, this, hd]

theorem digitOf_getD {b : Nat} {c : Char} (h : (digitOf b c).isSome = true) :
    digitOf b c = some ((digitVal c).getD 0) := by
  unfold digitOf at h ⊢
  cases hv : digitVal c with
  | none => simp [hv] at h
  | some d =>
    simp only [hv] at h ⊢
    by_cases hd : d < b <;> simp [hd] at h ⊢

theorem scanDigits_append {b : Nat} (ds rest : List Char)
    (hds : ∀ c ∈ ds, (digitOf b c).isSome = true)
    (hrest : ∀ c, rest.head? = some c → digitOf b c = none) (acc : Nat) :
    scanDigits b acc (ds ++ rest) = (valOf b acc ds, rest) := by
  induction ds generalizing acc with
  | nil =>
    cases rest with
    | nil => simp [scanDigits, valOf]
    | cons c cs =>
      have := hrest c (by simp)
      simp [scanDigits, valOf, this]
  | cons c cs ih =>
    have hc := digitOf_getD (hds c (by simp))
    simp only [List.cons_append, scanDigits, hc]
    change scanDigits b _ (cs ++ rest) = _
    rw [ih (fun x hx => hds x (by simp [hx]))]
    simp [valOf]

theorem toDigitsCore_numeral {b : Nat} (hb : 2 ≤ b) (hb16 : b ≤ 16) (fuel : Nat) :
    ∀ (n : Nat) (acc : List Char), n < fuel →
      ∃ ds, Nat.toDigitsCore b fuel n acc = ds ++ acc ∧ IsNumeral b ds n := by
  induction fuel with
  | zero => intro n acc h; omega
  | succ fuel ih =>
    intro n acc hn
    have hmod : n % b < b := Nat.mod_lt _ (by omega)
    have hdig := digitOf_digitChar hb16 hmod
    rw [Nat.toDigitsCore]
    by_cases h0 : n / b = 0
    · have hlt : n < b := by
        rcases Nat.lt_or_ge n b with h | h
        · exact h
        · have := Nat.div_pos h (by omega : 0 < b); omega
      refine ⟨[Nat.digitChar (n % b)], by simp [h0], by simp, ?_, ?_⟩
      · intro c hc
        simp only [List.mem_singleton] at hc
        simp [hc, hdig]
      · have := digitVal_digitChar ⟨n % b, by omega⟩
        simp only [Nat.mod_eq_of_lt hlt] at this
        simp [valOf, this, Nat.mod_eq_of_lt hlt]
    · have hlt : n / b < fuel := by
        have : n / b < n := Nat.div_lt_self (by
          rcases Nat.eq_zero_or_pos n with h | h
          · simp [h] at h0
          · exact h) (by omega)
        omega
      obtain ⟨ds, hds, hne, hall, hval⟩ := ih (n / b) (Nat.digitChar (n % b) :: acc) hlt
      refine ⟨ds ++ [Nat.digitChar (n % b)], by simp [h0, hds], by simp, ?_, ?_⟩
      · intro c hc
        rcases List.mem_append.mp hc with h | h
        · exact hall c h
        · simp only [List.mem_singleton] at h
          simp [h, hdig]
      · have := digitVal_digitChar ⟨n % b, by omega⟩
        simp only at this
        unfold valOf at hval ⊢
        rw [List.foldl_append, hval]
        simp only [List.foldl_cons, List.foldl_nil, this, Option.getD_some]
        exact Nat.div_add_mod' n b

theorem hex_numeral (n : Nat) : IsNumeral 16 (hex n) n := by
  obtain ⟨ds, h, hn⟩ := toDigitsCore_numeral (b := 16) (by norm_num) (by norm_num) (n + 1) n []
    (by omega)
  unfold hex Nat.toDigits
  rw [h, List.append_nil]
  exact hn

theorem decimal_numeral (n : Nat) : IsNumeral 10 (decimal n) n := by
  obtain ⟨ds, h, hn⟩ := toDigitsCore_numeral (b := 10) (by norm_num) (by norm_num) (n + 1) n []
    (by omega)
  unfold decimal Nat.toDigits
  rw [h, List.append_nil]
  exact hn

theorem IsNumeral.zeros {b : Nat} (hb : 2 ≤ b) {ds : List Char} {n : Nat}
    (h : IsNumeral b ds n) (z : Nat) : IsNumeral b (List.replicate z '0' ++ ds) n := by
  induction z with
  | zero => simpa using h
  | succ z ih =>
    obtain ⟨_, hall, hval⟩ := ih
    refine ⟨by simp [List.replicate_succ], ?_, ?_⟩
    · intro c hc
      simp only [List.replicate_succ, List.cons_append, List.mem_cons] at hc
      rcases hc with rfl | hc
      · have : digitVal '0' = some 0 := by decide
        simp [digitOf, this]; omega
      · exact hall c hc
    · have : digitVal '0' = some 0 := by decide
      simp only [List.replicate_succ, List.cons_append, valOf, List.foldl_cons, this]
      simpa [valOf] using hval

theorem digit_not_special {b : Nat} (hb : b ≤ 16) {c : Char}
    (h : (digitOf b c).isSome = true) :
    c ≠ '.' ∧ c ≠ '_' ∧ c ≠ ':' ∧ c ≠ '-' ∧ c ≠ '+' ∧ c ≠ 'x' ∧ c ≠ 'X' ∧
      isspace c = false := by
  have hx : digitVal 'x' = some 33 := by decide
  have hX : digitVal 'X' = some 33 := by decide
  have hnone : ∀ c : Char, digitVal c = none → (digitOf b c).isSome = true → False := by
    intro c hc hs
    simp [digitOf, hc] at hs
  refine ⟨?_, ?_, ?_, ?_, ?_, ?_, ?_, ?_⟩
  · rintro rfl; exact hnone _ (by decide) h
  · rintro rfl; exact hnone _ (by decide) h
  · rintro rfl; exact hnone _ (by decide) h
  · rintro rfl; exact hnone _ (by decide) h
  · rintro rfl; exact hnone _ (by decide) h
  · rintro rfl
    simp only [digitOf, hx] at h
    have : ¬ 33 < b := by omega
    simp [this] at h
  · rintro rfl
    simp only [digitOf, hX] at h
    have : ¬ 33 < b := by omega
    simp [this] at h
  · cases hs : isspace c with
    | false => rfl
    | true =>
      simp only [isspace, Bool.or_eq_true, decide_eq_true_eq] at hs
      rcases hs with ((((rfl | rfl) | rfl) | rfl) | rfl) | rfl <;>
        exact absurd h (fun h => hnone _ (by decide) h)

theorem SepHead.not_digit {rest : List Char} (h : SepHead rest) (b : Nat) :
    ∀ c, rest.head? = some c → digitOf b c = none := by
  intro c hc
  rcases h c hc with rfl | rfl | rfl <;> rfl

theorem scanRadix_plain {b : Nat} (hb : b ≠ 0) (s : List Char)
    (h : ∀ c x, s.head? = some c → s.tail.head? = some x → x ≠ 'x' ∧ x ≠ 'X') :
    scanRadix b s = (b, s) := by
  unfold scanRadix
  split
  · rename_i x d t
    have := h '0' x (by simp) (by simp)
    simp [this.1, this.2, hb]
  · simp [hb]
  · simp [hb]

theorem strtoul_numeral {b : Nat} (hb : b = 10 ∨ b = 16) {ds rest : List Char} {n : Nat}
    (h : IsNumeral b ds n) (hrest : SepHead rest) (hn : n ≤ ULONG_MAX) :
    strtoul (ds ++ rest) b = (n, rest) := by
  obtain ⟨hne, hall, hval⟩ := h
  have hb16 : b ≤ 16 := by omega
  have hb0 : b ≠ 0 := by omega
  cases ds with
  | nil => exact absurd rfl hne
  | cons c cs =>
    have hc := hall c (by simp)
    obtain ⟨_, _, _, hm, hp, _, _, hsp⟩ := digit_not_special hb16 hc
    have h1 : List.dropWhile isspace (c :: cs ++ rest) = c :: cs ++ rest := by
      simp [List.dropWhile, hsp]
    have h2 : scanSign (c :: cs ++ rest) = (false, c :: cs ++ rest) := by
      simp only [List.cons_append]
      unfold scanSign
      split
      · rename_i heq; simp at heq; exact absurd heq.1 hm
      · rename_i heq; simp at heq; exact absurd heq.1 hp
      · rfl
    have h3 : scanRadix b (c :: cs ++ rest) = (b, c :: cs ++ rest) := by
      apply scanRadix_plain hb0
      intro c' x _ hx
      cases cs with
      | nil =>
        simp only [List.cons_append, List.nil_append, List.tail_cons] at hx
        rcases hrest x hx with rfl | rfl | rfl <;> decide
      | cons d ds =>
        simp only [List.cons_append, List.tail_cons, List.head?_cons, Option.some.injEq] at hx
        subst hx
        have := digit_not_special hb16 (hall d (by simp))
        exact ⟨this.2.2.2.2.2.1, this.2.2.2.2.2.2.1⟩
    have h4 := scanDigits_append (c :: cs) rest hall (hrest.not_digit b) 0
    rw [hval] at h4
    unfold strtoul
    simp only [h1, h2, h3]
    simp only [List.cons_append] at h4 ⊢
    simp only [hc, if_true, h4]
    have : ¬ n > ULONG_MAX := by omega
    simp [this]

theorem get_number_numeral {b : Nat} (hb : b = 10 ∨ b = 16) {ds rest : List Char} {n : Nat}
    (h : IsNumeral b ds n) (hrest : SepHead rest) (old max : Int)
    (hmax : max < 2 ^ 31) (hn : (n : Int) ≤ max) :
    get_number (ds ++ rest) rest b old 0 max = (0, (n : Int)) := by
  have hU : n ≤ ULONG_MAX := by unfold ULONG_MAX; omega
  have hlen : 0 < ds.length := List.length_pos.mpr h.1
  unfold get_number
  rw [strtoul_numeral hb h hrest hU]
  have h1 : ¬ rest.length = (ds ++ rest).length := by
    rw [List.length_append]; omega
  have h0 : (0 : Int) ≤ max := le_trans (Int.ofNat_nonneg n) hn
  have e0 : toULong 0 = 0 := by decide
  have e1 : toULong max = max.toNat := by
    unfold toULong
    rw [Int.emod_eq_of_lt h0 (show max < 2 ^ 64 by omega)]
  have e2 := Int.toNat_of_nonneg h0
  have h2 : ¬ (n < toULong 0 ∨ n > toULong max) := by rw [e0, e1]; omega
  have h3 : toInt32 n = (n : Int) := by unfold toInt32; split <;> omega
  simp [h1, h2, h3, h.1]

theorem strchr_append {a rest : List Char} {c : Char} (h : c ∉ a) :
    strchr (a ++ c :: rest) c = some (c :: rest) := by
  induction a with
  | nil => simp [strchr]
  | cons x xs ih =>
    have hx : x ≠ c := fun e => h (by simp [e])
    simp only [List.cons_append, strchr, hx, if_false]
    exact ih (fun hm => h (by simp [hm]))

theorem strchr_none {a : List Char} {c : Char} (h : c ∉ a) : strchr a c = none := by
  induction a with
  | nil => rfl
  | cons x xs ih =>
    have hx : x ≠ c := fun e => h (by simp [e])
    simp only [strchr, hx, if_false]
    exact ih (fun hm => h (by simp [hm]))

theorem strpbrk_append {a rest acc : List Char} {c : Char} (h : ∀ x ∈ a, x ∉ acc)
    (hc : c ∈ acc) : strpbrk (a ++ c :: rest) acc = some (c :: rest) := by
  induction a with
  | nil => simp [strpbrk, hc]
  | cons x xs ih =>
    have hx : x ∉ acc := h x (by simp)
    simp only [List.cons_append, strpbrk, hx, if_false]
    exact ih (fun y hy => h y (by simp [hy]))

theorem IsNumeral.no_sep {b : Nat} (hb : b ≤ 16) {ds : List Char} {n : Nat}
    (h : IsNumeral b ds n) : '.' ∉ ds ∧ '_' ∉ ds ∧ ':' ∉ ds := by
  refine ⟨fun hm => ?_, fun hm => ?_, fun hm => ?_⟩
  · exact (digit_not_special hb (h.2.1 _ hm)).1 rfl
  · exact (digit_not_special hb (h.2.1 _ hm)).2.1 rfl
  · exact (digit_not_special hb (h.2.1 _ hm)).2.2.1 rfl

theorem SepHead.nil : SepHead [] := by
  intro c hc; simp at hc

theorem SepHead.dot (t : List Char) : SepHead ('.' :: t) := by
  intro c hc; simp at hc; simp [← hc]

theorem SepHead.underscore (t : List Char) : SepHead ('_' :: t) := by
  intro c hc; simp at hc; simp [← hc]

theorem SepHead.colon (t : List Char) : SepHead (':' :: t) := by
  intro c hc; simp at hc; simp [← hc]

theorem get_number_numeral_end {b : Nat} (hb : b = 10 ∨ b = 16) {ds : List Char} {n : Nat}
    (h : IsNumeral b ds n) (old max : Int) (hmax : max < 2 ^ 31) (hn : (n : Int) ≤ max) :
    get_number ds [] b old 0 max = (0, (n : Int)) := by
  have := get_number_numeral hb h SepHead.nil old max hmax hn
  rwa [List.append_nil] at this

theorem strpbrk_numeral {ds rest : List Char} {n : Nat} {c : Char} (h : IsNumeral 10 ds n)
    (hc : c = '_' ∨ c = '.') :
    strpbrk (ds ++ c :: rest) ['_', '.'] = some (c :: rest) := by
  apply strpbrk_append
  · intro x hx hm
    have := h.no_sep (by norm_num)
    simp only [List.mem_cons, List.mem_singleton, List.not_mem_nil, or_false] at hm
    rcases hm with rfl | rfl
    · exact this.2.1 hx
    · exact this.1 hx
  · rcases hc with rfl | rfl <;> simp

theorem strpbrk_none_numeral {ds : List Char} {n : Nat} (h : IsNumeral 10 ds n) :
    strpbrk ds ['_', '.'] = none := by
  have hs := h.no_sep (by norm_num)
  have : ∀ l : List Char, '_' ∉ l → '.' ∉ l → strpbrk l ['_', '.'] = none := by
    intro l
    induction l with
    | nil => intros; rfl
    | cons x xs ih =>
      intro h1 h2
      have hx : x ∉ ['_', '.'] := by
        simp only [List.mem_cons, List.mem_singleton, List.not_mem_nil, or_false, not_or]
        exact ⟨fun e => h1 (by simp [e]), fun e => h2 (by simp [e])⟩
      simp only [strpbrk, hx, if_false]
      exact ih (fun hm => h1 (by simp [hm])) (fun hm => h2 (by simp [hm]))
  exact this ds hs.2.1 hs.1

/-- The bit clause `.H:L` of a Clause-22 descriptor, with both bits given. -/
theorem parse_c22_bits_pair {H L : List Char} {h l : Nat} (ri : reg_info)
    (hH : IsNumeral 10 H h) (hL : IsNumeral 10 L l) (hh : h ≤ 31) (hl : l ≤ 31) (c : Char) :
    parse_c22_bits (c :: (H ++ ':' :: L)) ri
      = (0, { ri with bit_h := (h : Int), bit_l := (l : Int) }) := by
  have s1 : strchr (H ++ ':' :: L) ':' = some (':' :: L) :=
    strchr_append (hH.no_sep (by norm_num)).2.2
  have g1 := get_number_numeral (Or.inl rfl) hH (SepHead.colon L) ri.bit_h 31 (by norm_num)
    (by omega)
  have g2 := get_number_numeral_end (Or.inl rfl) hL ri.bit_l 31 (by norm_num) (by omega)
  simp [parse_c22_bits, s1, g1, g2]

/-- The bit clause `.H` of a Clause-22 descriptor, with `bit_l` left out. -/
theorem parse_c22_bits_single {H : List Char} {h : Nat} (ri : reg_info)
    (hH : IsNumeral 10 H h) (hh : h ≤ 31) (c : Char) :
    parse_c22_bits (c :: H) ri
      = (0, { ri with bit_h := (h : Int), bit_l := (h : Int) }) := by
  have s1 : strchr H ':' = none := strchr_none (hH.no_sep (by norm_num)).2.2
  have g1 := get_number_numeral_end (Or.inl rfl) hH ri.bit_h 31 (by norm_num) (by omega)
  simp [parse_c22_bits, s1, g1]

theorem parse_c22_reg_full {P R G H L : List Char} {p r g h l : Nat} (ri : reg_info)
    (hP : IsNumeral 16 P p) (hR : IsNumeral 10 R r) (hG : IsNumeral 10 G g)
    (hH : IsNumeral 10 H h) (hL : IsNumeral 10 L l)
    (hp : p ≤ 31) (hr : r ≤ 31) (hg : g ≤ 255) (hh : h ≤ 31) (hl : l ≤ 31) :
    parse_c22_reg (P ++ '.' :: (R ++ '_' :: (G ++ '.' :: (H ++ ':' :: L)))) ri
      = (0, { ri with phy := (p : Int), reg := (r : Int), page := (g : Int),
                      bit_h := (h : Int), bit_l := (l : Int) }) := by
  have s1 : strchr (P ++ '.' :: (R ++ '_' :: (G ++ '.' :: (H ++ ':' :: L)))) '.'
      = some ('.' :: (R ++ '_' :: (G ++ '.' :: (H ++ ':' :: L)))) :=
    strchr_append (hP.no_sep (by norm_num)).1
  have g1 := get_number_numeral (Or.inr rfl) hP
    (SepHead.dot (R ++ '_' :: (G ++ '.' :: (H ++ ':' :: L)))) ri.phy 0x1f (by norm_num) (by omega)
  have s2 : strpbrk (R ++ '_' :: (G ++ '.' :: (H ++ ':' :: L))) ['_', '.']
      = some ('_' :: (G ++ '.' :: (H ++ ':' :: L))) := strpbrk_numeral hR (Or.inl rfl)
  have g2 := get_number_numeral (Or.inl rfl) hR
    (SepHead.underscore (G ++ '.' :: (H ++ ':' :: L))) ri.reg 31 (by norm_num) (by omega)
  have s3 : strchr (G ++ '.' :: (H ++ ':' :: L)) '.' = some ('.' :: (H ++ ':' :: L)) :=
    strchr_append (hG.no_sep (by norm_num)).1
  have g3 := get_number_numeral (Or.inl rfl) hG
    (SepHead.dot (H ++ ':' :: L)) ri.page 255 (by norm_num) (by omega)
  simp [parse_c22_reg, s1, g1, s2, g2, s3, g3]
  rw [parse_c22_bits_pair _ hH hL hh hl]

/-- C4: for `p, r ≤ 31`, `g ≤ 255` and `l ≤ h ≤ 31`, `parse_c22_reg` on the
descriptor `hex(p).decimal(r)_decimal(g).decimal(h):decimal(l)` returns 0 on a
freshly initialised `reg_info` and stores exactly these five fields. -/
theorem parse_c22_reg_roundtrip (p r g h l : Nat) (hp : p ≤ 31) (hr : r ≤ 31)
    (hg : g ≤ 255) (hlh : l ≤ h) (hh : h ≤ 31) :
    parse_c22_reg (hex p ++ ['.'] ++ decimal r ++ ['_'] ++ decimal g ++ ['.']
        ++ decimal h ++ [':'] ++ decimal l) init_reg_info
      = (0, { init_reg_info with phy := (p : Int), reg := (r : Int), page := (g : Int),
                                 bit_h := (h : Int), bit_l := (l : Int) }) := by
  have := parse_c22_reg_full init_reg_info (hex_numeral p) (decimal_numeral r)
    (decimal_numeral g) (decimal_numeral h) (decimal_numeral l) hp hr hg hh (by omega)
  simpa only [List.append_assoc, List.singleton_append] using this

/-- The spec example for C4: `"1f.2_3.13:4"`. -/
theorem parse_c22_reg_roundtrip_witness :
    (31 ≤ 31 ∧ 2 ≤ 31 ∧ 3 ≤ 255 ∧ 4 ≤ 13 ∧ 13 ≤ 31) ∧
    hex 31 ++ ['.'] ++ decimal 2 ++ ['_'] ++ decimal 3 ++ ['.'] ++ decimal 13 ++ [':']
      ++ decimal 4 = "1f.2_3.13:4".toList ∧
    parse_c22_reg (hex 31 ++ ['.'] ++ decimal 2 ++ ['_'] ++ decimal 3 ++ ['.']
        ++ decimal 13 ++ [':'] ++ decimal 4) init_reg_info
      = (0, { init_reg_info with phy := ((31 : Nat) : Int), reg := ((2 : Nat) : Int),
                                 page := ((3 : Nat) : Int), bit_h := ((13 : Nat) : Int),
                                 bit_l := ((4 : Nat) : Int) }) :=
  ⟨by decide, by decide,
    parse_c22_reg_roundtrip 31 2 3 13 4 (by decide) (by decide) (by decide) (by decide)
      (by decide)⟩

theorem parse_c45_reg_single {P D R H : List Char} {p d r h : Nat} (ri : reg_info)
    (hP : IsNumeral 16 P p) (hD : IsNumeral 16 D d) (hR : IsNumeral 16 R r)
    (hH : IsNumeral 10 H h)
    (hp : p ≤ 31) (hd : d ≤ 31) (hr : r ≤ 0xffff) (hh : h ≤ 15) :
    parse_c45_reg (P ++ '.' :: (D ++ '_' :: (R ++ '.' :: H))) ri
      = (0, { ri with phy := (p : Int), dev := (d : Int), reg := (r : Int),
                      bit_h := (h : Int), bit_l := (h : Int) }) := by
  have s1 : strchr (P ++ '.' :: (D ++ '_' :: (R ++ '.' :: H))) '.'
      = some ('.' :: (D ++ '_' :: (R ++ '.' :: H))) :=
    strchr_append (hP.no_sep (by norm_num)).1
  have g1 := get_number_numeral (Or.inr rfl) hP
    (SepHead.dot (D ++ '_' :: (R ++ '.' :: H))) ri.phy 0x1f (by norm_num) (by omega)
  have s2 : strchr (D ++ '_' :: (R ++ '.' :: H)) '_' = some ('_' :: (R ++ '.' :: H)) :=
    strchr_append (hD.no_sep (by norm_num)).2.1
  have g2 := get_number_numeral (Or.inr rfl) hD
    (SepHead.underscore (R ++ '.' :: H)) ri.dev 0x1f (by norm_num) (by omega)
  have s3 : strchr (R ++ '.' :: H) '.' = some ('.' :: H) :=
    strchr_append (hR.no_sep (by norm_num)).1
  have g3 := get_number_numeral (Or.inr rfl) hR (SepHead.dot H) ri.reg 0xffff (by norm_num)
    (by omega)
  have s4 : strchr H ':' = none := strchr_none (hH.no_sep (by norm_num)).2.2
  have g4 := get_number_numeral_end (Or.inl rfl) hH ri.bit_h 15 (by norm_num) (by omega)
  simp [parse_c45_reg, s1, g1, s2, g2, s3, g3, s4, g4]

/-- C5: for `p, d ≤ 31`, `r ≤ 0xffff` and `h ≤ 15`, `parse_c45_reg` on the
descriptor `hex(p).hex(d)_hex(r).decimal(h)`, each hexadecimal field preceded by
any number of zeros, returns 0 on a freshly initialised `reg_info` and stores
`phy = p`, `dev = d`, `reg = r` and `bit_h = bit_l = h`. -/
theorem parse_c45_reg_single_bit (p d r h zp zd zr : Nat) (hp : p ≤ 31) (hd : d ≤ 31)
    (hr : r ≤ 0xffff) (hh : h ≤ 15) :
    parse_c45_reg (List.replicate zp '0' ++ hex p ++ ['.'] ++ List.replicate zd '0' ++ hex d
        ++ ['_'] ++ List.replicate zr '0' ++ hex r ++ ['.'] ++ decimal h) init_reg_info
      = (0, { init_reg_info with phy := (p : Int), dev := (d : Int), reg := (r : Int),
                                 bit_h := (h : Int), bit_l := (h : Int) }) := by
  have := parse_c45_reg_single init_reg_info ((hex_numeral p).zeros (by norm_num) zp)
    ((hex_numeral d).zeros (by norm_num) zd) ((hex_numeral r).zeros (by norm_num) zr)
    (decimal_numeral h) hp hd hr hh
  simpa only [List.append_assoc, List.singleton_append] using this

/-- The spec example for C5: `"10.0_0002.5"`. -/
theorem parse_c45_reg_single_bit_witness :
    (16 ≤ 31 ∧ 0 ≤ 31 ∧ 2 ≤ 0xffff ∧ 5 ≤ 15) ∧
    List.replicate 0 '0' ++ hex 16 ++ ['.'] ++ List.replicate 0 '0' ++ hex 0
        ++ ['_'] ++ List.replicate 3 '0' ++ hex 2 ++ ['.'] ++ decimal 5 = "10.0_0002.5".toList ∧
    parse_c45_reg (List.replicate 0 '0' ++ hex 16 ++ ['.'] ++ List.replicate 0 '0' ++ hex 0
        ++ ['_'] ++ List.replicate 3 '0' ++ hex 2 ++ ['.'] ++ decimal 5) init_reg_info
      = (0, { init_reg_info with phy := ((16 : Nat) : Int), dev := ((0 : Nat) : Int),
                                 reg := ((2 : Nat) : Int), bit_h := ((5 : Nat) : Int),
                                 bit_l := ((5 : Nat) : Int) }) :=
  ⟨by decide, by decide,
    parse_c45_reg_single_bit 16 0 2 5 0 0 3 (by decide) (by decide) (by decide) (by decide)⟩

/-- C6: evaluation of `parse_c22_reg` at the inverted range `"1f.2.3:7"`: it
returns 0 and stores `bit_h = 3`, `bit_l = 7`, while `parse_c45_reg`, which has
the `bit_h < bit_l` check, rejects the same range in `"1f.2_0.3:7"`. -/
theorem parse_c22_reg_inverted_range :
    parse_c22_reg "1f.2.3:7".toList init_reg_info
      = (0, { init_reg_info with phy := 31, reg := 2, bit_h := 3, bit_l := 7 }) ∧
    (parse_c45_reg "1f.2_0.3:7".toList init_reg_info).1 = -1 := by
  decide

/-! ## Binary rendering -/

theorem and_two_pow_ne_zero (v i : Nat) : v &&& 2 ^ i ≠ 0 ↔ v.testBit i = true := by
  constructor
  · intro h
    by_contra hb
    apply h
    apply Nat.eq_of_testBit_eq
    intro j
    rw [Nat.testBit_and, Nat.testBit_two_pow, Nat.zero_testBit]
    by_cases hij : i = j
    · subst hij; simp [hb]
    · simp [hij]
  · intro h h0
    have : (v &&& 2 ^ i).testBit i = true := by
      rw [Nat.testBit_and, Nat.testBit_two_pow_self, h]; rfl
    rw [h0, Nat.zero_testBit] at this
    exact absurd this (by decide)

theorem bitChar_eq (v i : Nat) (hi : i < 32) :
    bitChar v (i : Int) = if v.testBit i = true then '1' else '0' := by
  unfold bitChar
  have h2 : (2 : Nat) ^ i < 2 ^ 32 := Nat.pow_lt_pow_right (by norm_num) hi
  rw [Int.toNat_ofNat, Nat.one_shiftLeft, Nat.mod_eq_of_lt h2]
  by_cases h : v.testBit i = true
  · rw [if_pos ((and_two_pow_ne_zero v i).mpr h), if_pos h]
  · rw [if_neg (fun hh => h ((and_two_pow_ne_zero v i).mp hh)), if_neg h]

theorem bitChar_ne_space (v : Nat) (i : Int) : bitChar v i ≠ ' ' := by
  unfold bitChar
  split <;> decide

theorem bin2str_loop_filter (v : Nat) (li : Int) (idx : List Nat) :
    ∀ (n : Nat) (i sc : Int) (sci : Nat), i = li + n - 1 →
      (bin2str_loop v li idx n i sc sci).filter (fun c => c ≠ ' ')
        = (List.range n).map (fun k => bitChar v (i - (k : Nat))) := by
  intro n
  induction n with
  | zero => intro i sc sci _; simp [bin2str_loop]
  | succ n ih =>
    intro i sc sci hi
    have hge : i ≥ li := by omega
    have hb : decide (bitChar v i ≠ ' ') = true := by simpa using bitChar_ne_space v i
    have hs : decide ((' ' : Char) ≠ ' ') = false := by decide
    have htail : ∀ sc' sci', (bin2str_loop v li idx n (i - 1) sc' sci').filter (fun c => c ≠ ' ')
        = (List.range n).map (fun k => bitChar v (i - ((k + 1 : Nat) : Int))) := by
      intro sc' sci'
      rw [ih (i - 1) sc' sci' (by omega)]
      apply List.map_congr_left
      intro k _
      congr 1
      push_cast
      omega
    rw [List.range_succ_eq_map, List.map_cons, List.map_map]
    simp only [bin2str_loop, hge, if_true]
    split
    · simp only [List.filter_cons, hb, hs, if_true, htail]
      simp [Function.comp_def]
    · simp only [List.filter_cons, hb, if_true, htail]
      simp [Function.comp_def]

theorem bin2str_filter (v hi li : Nat) (hl : li ≤ hi) (hh : hi ≤ 15) :
    (bin2str v hi li).filter (fun c => c ≠ ' ')
      = (List.range (hi - li + 1)).map
          (fun k => if v.testBit (hi - k) = true then '1' else '0') := by
  unfold bin2str
  have hn : ((hi : Int) - (li : Int) + 1).toNat = hi - li + 1 := by omega
  rw [hn, bin2str_loop_filter v li _ (hi - li + 1) hi _ 0 (by push_cast; omega)]
  apply List.map_congr_left
  intro k hk
  have hk' : k < hi - li + 1 := List.mem_range.mp hk
  have e : (hi : Int) - (k : Int) = ((hi - k : Nat) : Int) := by omega
  rw [e, bitChar_eq v (hi - k) (by omega)]

/-- C7: for `0 ≤ li ≤ hi ≤ 15`, the string `bin2str` writes, with its spaces
deleted, has `hi - li + 1` characters, each `'0'` or `'1'`, and its `k`-th
character is `'1'` exactly when bit `hi - k` of the value is set. -/
theorem bin2str_bits (v hi li : Nat) (_hv : v < 2 ^ 16) (hl : li ≤ hi) (hh : hi ≤ 15) :
    ((bin2str v hi li).filter (fun c => c ≠ ' ')).length = hi - li + 1 ∧
    (∀ c ∈ (bin2str v hi li).filter (fun c => c ≠ ' '), c = '0' ∨ c = '1') ∧
    (∀ k, k < hi - li + 1 →
      (((bin2str v hi li).filter (fun c => c ≠ ' '))[k]? = some '1' ↔ v.testBit (hi - k) = true) ∧
      (((bin2str v hi li).filter (fun c => c ≠ ' '))[k]? = some '0' ↔ v.testBit (hi - k) = false))
    := by
  rw [bin2str_filter v hi li hl hh]
  refine ⟨by simp, ?_, ?_⟩
  · intro c hc
    simp only [List.mem_map, List.mem_range] at hc
    obtain ⟨k, _, rfl⟩ := hc
    split
    · exact Or.inr rfl
    · exact Or.inl rfl
  · intro k hk
    rw [List.getElem?_map, List.getElem?_range hk]
    by_cases hb : v.testBit (hi - k) = true
    · simp [hb]
    · simp [hb]

/-- The spec examples for C7: `0x5a5a` over `[15,0]`, `[13,5]` and `[7,4]`. -/
theorem bin2str_bits_witness :
    (bin2str 0x5a5a 15 0 = "0101 1010 0101 1010".toList ∧
     bin2str 0x5a5a 13 5 = "0 1101 0010".toList ∧
     bin2str 0x5a5a 7 4 = "0101".toList) ∧
    ((0x5a5a < 2 ^ 16 ∧ 5 ≤ 13 ∧ 13 ≤ 15) ∧
    (((bin2str 0x5a5a (13 : Nat) (5 : Nat)).filter (fun c => c ≠ ' ')).length = 13 - 5 + 1 ∧
    (∀ c ∈ (bin2str 0x5a5a (13 : Nat) (5 : Nat)).filter (fun c => c ≠ ' '), c = '0' ∨ c = '1') ∧
    (∀ k, k < 13 - 5 + 1 →
      (((bin2str 0x5a5a (13 : Nat) (5 : Nat)).filter (fun c => c ≠ ' '))[k]? = some '1'
        ↔ (0x5a5a).testBit (13 - k) = true) ∧
      (((bin2str 0x5a5a (13 : Nat) (5 : Nat)).filter (fun c => c ≠ ' '))[k]? = some '0'
        ↔ (0x5a5a).testBit (13 - k) = false)))) :=
  ⟨by decide, by decide, bin2str_bits 0x5a5a 13 5 (by decide) (by decide) (by decide)⟩

theorem spacesAfter_loop_value (v : Nat) (li : Int) (idx : List Nat) :
    ∀ (n : Nat) (i sc : Int) (sci : Nat),
      spacesAfter (bin2str_loop v li idx n i sc sci) i
        = spacesAfter (bin2str_loop 0 li idx n i sc sci) i := by
  intro n
  induction n with
  | zero => intro i sc sci; rfl
  | succ n ih =>
    intro i sc sci
    have step : ∀ (w : Nat) (cs : List Char),
        spacesAfter (bitChar w i :: cs) i = spacesAfter cs (i - 1) := by
      intro w cs
      unfold bitChar
      split <;> rfl
    simp only [bin2str_loop]
    split
    · split
      · rw [step, step]
        simp only [spacesAfter]
        rw [ih]
      · rw [step, step, ih]
    · rfl

theorem spacesAfter_zero_aux : ∀ hi : Fin 16, ∀ li : Fin 16, li ≤ hi →
    (hi.val - li.val + 1 ≤ 12 ∨ li.val = 0) →
    spacesAfter (bin2str 0 (hi.val : Int) (li.val : Int)) (hi.val : Int)
      = anchoredSpaces hi.val li.val := by
  decide

/-- Where the grouping of `bin2str` is anchored to `li`: for `0 ≤ li ≤ hi ≤ 15`
with a width of at most 12 bits, or with `li = 0`, a space follows the character
of bit `i` exactly when `i > li` and `i - li` is a multiple of 4. -/
theorem bin2str_spaces_anchored (v hi li : Nat) (hl : li ≤ hi) (hh : hi ≤ 15)
    (hw : hi - li + 1 ≤ 12 ∨ li = 0) :
    spacesAfter (bin2str v hi li) hi = anchoredSpaces hi li := by
  have h0 := spacesAfter_zero_aux ⟨hi, by omega⟩ ⟨li, by omega⟩ hl hw
  simp only at h0
  rw [← h0]
  unfold bin2str
  exact spacesAfter_loop_value v _ _ _ _ _ _

/-! ## Accepted descriptors -/

theorem get_number_result (s e : List Char) (b : Nat) (old max : Int)
    (h0 : 0 ≤ max) (hmax : max < 2 ^ 31) :
    get_number s e b old 0 max = (-1, old) ∨
      ∃ v : Int, get_number s e b old 0 max = (0, v) ∧ 0 ≤ v ∧ v ≤ max := by
  unfold get_number
  by_cases h1 : (strtoul s b).2.length = s.length
  · left; simp [h1]
  · by_cases h2 : (strtoul s b).2.length ≠ e.length
    · left; simp [h1, h2]
    · by_cases h3 : (strtoul s b).1 < toULong 0 ∨ (strtoul s b).1 > toULong max
      · left; simp [h1, h2, h3]
      · right
        refine ⟨toInt32 (strtoul s b).1, by simp [h1, h2, h3], ?_⟩
        have e1 : toULong max = max.toNat := by
          unfold toULong
          rw [Int.emod_eq_of_lt h0 (show max < 2 ^ 64 by omega)]
        have e2 := Int.toNat_of_nonneg h0
        rw [e1] at h3
        unfold toInt32
        split <;> omega

theorem parse_c22_bits_ok (ptr : List Char) (ri ri' : reg_info)
    (h : parse_c22_bits ptr ri = (0, ri')) :
    ri'.phy = ri.phy ∧ ri'.reg = ri.reg ∧ ri'.page = ri.page ∧ ri'.dev = ri.dev ∧
      (0 ≤ ri'.bit_h ∧ ri'.bit_h ≤ 31) ∧ (0 ≤ ri'.bit_l ∧ ri'.bit_l ≤ 31) := by
  simp only [parse_c22_bits] at h
  rcases get_number_result ptr.tail ((strchr ptr.tail ':').getD []) 10 ri.bit_h 31
    (by norm_num) (by norm_num) with g1 | ⟨v1, g1, hv1, hv1'⟩
  · simp [g1] at h
  · simp only [g1, ne_eq, not_true_eq_false, if_false] at h
    by_cases hp : (strchr ptr.tail ':').getD [] = []
    · simp only [hp, if_true, Prod.mk.injEq, true_and] at h
      subst h
      simp [hv1, hv1']
    · simp only [hp, if_false] at h
      rcases get_number_result ((strchr ptr.tail ':').getD []).tail [] 10 ri.bit_l 31
        (by norm_num) (by norm_num) with g2 | ⟨v2, g2, hv2, hv2'⟩
      · simp [g2] at h
      · simp only [g2, ne_eq, not_true_eq_false, if_false, Prod.mk.injEq, true_and] at h
        subst h
        simp [hv1, hv1', hv2, hv2']

theorem parse_c22_reg_ok (s : List Char) (ri ri' : reg_info)
    (h : parse_c22_reg s ri = (0, ri')) :
    (0 ≤ ri'.phy ∧ ri'.phy ≤ 31) ∧ (0 ≤ ri'.reg ∧ ri'.reg ≤ 31) ∧
      (ri'.page = ri.page ∨ (0 ≤ ri'.page ∧ ri'.page ≤ 255)) ∧
      ((ri'.bit_h = ri.bit_h ∧ ri'.bit_l = ri.bit_l) ∨
        ((0 ≤ ri'.bit_h ∧ ri'.bit_h ≤ 31) ∧ (0 ≤ ri'.bit_l ∧ ri'.bit_l ≤ 31))) := by
  simp only [parse_c22_reg] at h
  cases hs : strchr s '.' with
  | none => simp [hs] at h
  | some p1 =>
    simp only [hs] at h
    rcases get_number_result s p1 16 ri.phy 0x1f (by norm_num) (by norm_num)
      with g1 | ⟨v1, g1, hv1, hv1'⟩
    · simp [g1] at h
    · simp only [g1, ne_eq, not_true_eq_false, if_false] at h
      rcases get_number_result p1.tail ((strpbrk p1.tail ['_', '.']).getD []) 10 ri.reg 31
        (by norm_num) (by norm_num) with g2 | ⟨v2, g2, hv2, hv2'⟩
      · simp [g2] at h
      · simp only [g2, ne_eq, not_true_eq_false, if_false] at h
        by_cases hp2 : (strpbrk p1.tail ['_', '.']).getD [] = []
        · simp only [hp2, if_true, Prod.mk.injEq, true_and] at h
          subst h
          simp [hv1, hv1', hv2, hv2']
        · simp only [hp2, if_false] at h
          by_cases hu : ((strpbrk p1.tail ['_', '.']).getD []).head? = some '_'
          · simp only [hu, if_true] at h
            rcases get_number_result ((strpbrk p1.tail ['_', '.']).getD []).tail
              ((strchr ((strpbrk p1.tail ['_', '.']).getD []).tail '.').getD []) 10 ri.page 255
              (by norm_num) (by norm_num) with g3 | ⟨v3, g3, hv3, hv3'⟩
            · simp [g3] at h
            · simp only [g3, ne_eq, not_true_eq_false, if_false] at h
              by_cases hp3 : (strchr ((strpbrk p1.tail ['_', '.']).getD []).tail '.').getD [] = []
              · simp only [hp3, if_true, Prod.mk.injEq, true_and] at h
                subst h
                simp [hv1, hv1', hv2, hv2', hv3, hv3']
              · simp only [hp3, if_false] at h
                obtain ⟨e1, e2, e3, _, b1, b2⟩ := parse_c22_bits_ok _ _ _ h
                simp only at e1 e2 e3
                rw [e1, e2, e3]
                exact ⟨⟨hv1, hv1'⟩, ⟨hv2, hv2'⟩, Or.inr ⟨hv3, hv3'⟩, Or.inr ⟨b1, b2⟩⟩
          · simp only [hu, if_false] at h
            obtain ⟨e1, e2, e3, _, b1, b2⟩ := parse_c22_bits_ok _ _ _ h
            simp only at e1 e2 e3
            rw [e1, e2, e3]
            exact ⟨⟨hv1, hv1'⟩, ⟨hv2, hv2'⟩, Or.inl rfl, Or.inr ⟨b1, b2⟩⟩

theorem parse_c45_reg_ok (s : List Char) (ri ri' : reg_info)
    (h : parse_c45_reg s ri = (0, ri')) :
    (0 ≤ ri'.phy ∧ ri'.phy ≤ 31) ∧ (0 ≤ ri'.dev ∧ ri'.dev ≤ 31) ∧
      (0 ≤ ri'.reg ∧ ri'.reg ≤ 65535) ∧ ri'.page = ri.page ∧
      ((ri'.bit_h = ri.bit_h ∧ ri'.bit_l = ri.bit_l) ∨
        ((0 ≤ ri'.bit_h ∧ ri'.bit_h ≤ 15) ∧ (0 ≤ ri'.bit_l ∧ ri'.bit_l ≤ 15) ∧
          ri'.bit_l ≤ ri'.bit_h)) := by
  simp only [parse_c45_reg] at h
  cases hs : strchr s '.' with
  | none => simp [hs] at h
  | some p1 =>
    simp only [hs] at h
    rcases get_number_result s p1 16 ri.phy 0x1f (by norm_num) (by norm_num)
      with g1 | ⟨v1, g1, hv1, hv1'⟩
    · simp [g1] at h
    · simp only [g1, ne_eq, not_true_eq_false, if_false] at h
      cases hs2 : strchr p1.tail '_' with
      | none => simp [hs2] at h
      | some p2 =>
        simp only [hs2] at h
        rcases get_number_result p1.tail p2 16 ri.dev 0x1f (by norm_num) (by norm_num)
          with g2 | ⟨v2, g2, hv2, hv2'⟩
        · simp [g2] at h
        · simp only [g2, ne_eq, not_true_eq_false, if_false] at h
          rcases get_number_result p2.tail ((strchr p2.tail '.').getD []) 16 ri.reg 0xffff
            (by norm_num) (by norm_num) with g3 | ⟨v3, g3, hv3, hv3'⟩
          · simp [g3] at h
          · simp only [g3, ne_eq, not_true_eq_false, if_false] at h
            by_cases hp3 : (strchr p2.tail '.').getD [] = []
            · simp only [hp3, if_true, Prod.mk.injEq, true_and] at h
              subst h
              simp [hv1, hv1', hv2, hv2', hv3, hv3']
            · simp only [hp3, if_false] at h
              rcases get_number_result ((strchr p2.tail '.').getD []).tail
                ((strchr ((strchr p2.tail '.').getD []).tail ':').getD []) 10 ri.bit_h 15
                (by norm_num) (by norm_num) with g4 | ⟨v4, g4, hv4, hv4'⟩
              · simp [g4] at h
              · simp only [g4, ne_eq, not_true_eq_false, if_false] at h
                by_cases hp4 : (strchr ((strchr p2.tail '.').getD []).tail ':').getD [] = []
                · simp only [hp4, if_true, Prod.mk.injEq, true_and] at h
                  subst h
                  simp [hv1, hv1', hv2, hv2', hv3, hv3', hv4, hv4']
                · simp only [hp4, if_false] at h
                  rcases get_number_result
                    ((strchr ((strchr p2.tail '.').getD []).tail ':').getD []).tail [] 10
                    ri.bit_l 15 (by norm_num) (by norm_num) with g5 | ⟨v5, g5, hv5, hv5'⟩
                  · simp [g5] at h
                  · simp only [g5, ne_eq, not_true_eq_false, if_false] at h
                    by_cases hlt : v4 < v5
                    · simp [hlt] at h
                    · simp only [hlt, if_false, Prod.mk.injEq, true_and] at h
                      subst h
                      have : v5 ≤ v4 := by omega
                      simp [hv1, hv1', hv2, hv2', hv3, hv3', hv4, hv4', hv5, hv5', this]

/-- C10: every descriptor accepted from a freshly initialised `reg_info`
satisfies the data model.  After `parse_c22_reg` returns 0: `phy` and `reg`
are in `0..31` and `page` is -1 or in `0..255`; after `parse_c45_reg` returns 0:
`phy` and `dev` are in `0..31` and `reg` is in `0..65535`; in both cases `bit_h`
and `bit_l` are both -1 or both non-negative. -/
theorem accepted_descriptor_model (s : List Char) :
    ((parse_c22_reg s init_reg_info).1 = 0 →
      Clause22Model (parse_c22_reg s init_reg_info).2) ∧
    ((parse_c45_reg s init_reg_info).1 = 0 →
      Clause45Model (parse_c45_reg s init_reg_info).2) := by
  constructor
  · intro h
    have e : parse_c22_reg s init_reg_info = (0, (parse_c22_reg s init_reg_info).2) :=
      Prod.ext h rfl
    obtain ⟨h1, h2, h3, h4⟩ := parse_c22_reg_ok s init_reg_info _ e
    refine ⟨h1, h2, h3, ?_⟩
    rcases h4 with h4 | h4
    · exact Or.inl h4
    · exact Or.inr ⟨h4.1.1, h4.2.1⟩
  · intro h
    have e : parse_c45_reg s init_reg_info = (0, (parse_c45_reg s init_reg_info).2) :=
      Prod.ext h rfl
    obtain ⟨h1, h2, h3, _, h5⟩ := parse_c45_reg_ok s init_reg_info _ e
    refine ⟨h1, h2, h3, ?_⟩
    rcases h5 with h5 | h5
    · exact Or.inl h5
    · exact Or.inr ⟨h5.1.1, h5.2.1.1⟩

/-- The spec examples `"1f.2_3.13:4"` (Clause 22) and `"10.0_0002.5"` (Clause 45)
are accepted and satisfy the data model. -/
theorem accepted_descriptor_model_witness :
    ((parse_c22_reg "1f.2_3.13:4".toList init_reg_info).1 = 0 ∧
      Clause22Model (parse_c22_reg "1f.2_3.13:4".toList init_reg_info).2) ∧
    ((parse_c45_reg "10.0_0002.5".toList init_reg_info).1 = 0 ∧
      Clause45Model (parse_c45_reg "10.0_0002.5".toList init_reg_info).2) :=
  ⟨⟨by decide, (accepted_descriptor_model "1f.2_3.13:4".toList).1 (by decide)⟩,
    ⟨by decide, (accepted_descriptor_model "10.0_0002.5".toList).2 (by decide)⟩⟩

/-- C8: evaluation of `bin2str` at value `0x5a5a`, range `[15, 1]`:
`get_space_index` stores `13, 8, 4`, so the spaces follow bits 13, 8 and 4,
while the grouping anchored to `li = 1` puts them after bits 13, 9 and 5. -/
theorem bin2str_spaces_not_anchored :
    get_space_index 15 1 = (3, [13, 8, 4]) ∧
    bin2str 0x5a5a 15 1 = "010 11010 0101 101".toList ∧
    spacesAfter (bin2str 0x5a5a 15 1) 15 = [13, 8, 4] ∧
    anchoredSpaces 15 1 = [13, 9, 5] ∧
    spacesAfter (bin2str 0x5a5a 15 1) 15 ≠ anchoredSpaces 15 1 := by
  decide

/-- C9: evaluation of `main` on the simulated transport with register 2 of phy 1
holding `0xfa5a`.  The invocation `mdio c22 write eth0 1.2.12:8 0x20b` exits
with 0, leaves the register at `0xfa5a` (the composed value would be `0xeb5a`)
and prints the line of a read; `mdio c22 write eth0 1.2 0x20b` leaves it at
`0xfa5a` as well.  In both `parse_reg_info` stores `is_write = 0`. -/
theorem main_write_leaves_register :
    (parse_reg_info ["mdio".toList, "c22".toList, "write".toList, "eth0".toList,
        "1.2.12:8".toList, "0x20b".toList]).2.is_write = 0 ∧
    (main (simTransport (fun p r => if p = 1 ∧ r = 2 then 0xfa5a else 0))
        ["mdio".toList, "c22".toList, "write".toList, "eth0".toList,
          "1.2.12:8".toList, "0x20b".toList]).status = 0 ∧
    (main (simTransport (fun p r => if p = 1 ∧ r = 2 then 0xfa5a else 0))
        ["mdio".toList, "c22".toList, "write".toList, "eth0".toList,
          "1.2.12:8".toList, "0x20b".toList]).dev.map (fun s => s 1 2) = some 0xfa5a ∧
    (main (simTransport (fun p r => if p = 1 ∧ r = 2 then 0xfa5a else 0))
        ["mdio".toList, "c22".toList, "write".toList, "eth0".toList,
          "1.2.12:8".toList, "0x20b".toList]).stdout = "1a \"1 1010\"\n".toList ∧
    composeWrite 0xfa5a 0x20b 12 8 = 0xeb5a ∧
    (main (simTransport (fun p r => if p = 1 ∧ r = 2 then 0xfa5a else 0))
        ["mdio".toList, "c22".toList, "write".toList, "eth0".toList,
          "1.2".toList, "0x20b".toList]).dev.map (fun s => s 1 2) = some 0xfa5a := by
  decide


/-! ## Characterisation of `strtoul` and `get_number` -/

theorem digitOf_isSome_digitVal {b : Nat} {c : Char} (h : (digitOf b c).isSome = true) :
    (digitVal c).isSome = true := by
  unfold digitOf at h
  cases hv : digitVal c with
  | none => simp [hv] at h
  | some d => rfl

theorem digit_char_facts {c : Char} (h : (digitVal c).isSome = true) :
    c ≠ '.' ∧ c ≠ '_' ∧ c ≠ ':' ∧ c ≠ '-' ∧ c ≠ '+' ∧ isspace c = false := by
  have hnone : ∀ x : Char, digitVal x = none → x ≠ c := by
    intro x hx e
    rw [e] at hx
    simp [hx] at h
  refine ⟨?_, ?_, ?_, ?_, ?_, ?_⟩
  · exact fun e => hnone '.' (by decide) e.symm
  · exact fun e => hnone '_' (by decide) e.symm
  · exact fun e => hnone ':' (by decide) e.symm
  · exact fun e => hnone '-' (by decide) e.symm
  · exact fun e => hnone '+' (by decide) e.symm
  · cases hs : isspace c with
    | false => rfl
    | true =>
      simp only [isspace, Bool.or_eq_true, decide_eq_true_eq] at hs
      rcases hs with ((((e | e) | e) | e) | e) | e <;>
        exact absurd e.symm (hnone _ (by decide))

theorem dropWhile_isspace_append (ws t : List Char) (hws : ∀ c ∈ ws, isspace c = true)
    (ht : ∀ c, t.head? = some c → isspace c = false) :
    List.dropWhile isspace (ws ++ t) = t := by
  induction ws with
  | nil =>
    cases t with
    | nil => rfl
    | cons c cs => simp [List.dropWhile, ht c (by simp)]
  | cons w ws ih =>
    simp only [List.cons_append, List.dropWhile, hws w (by simp)]
    exact ih (fun c hc => hws c (by simp [hc]))

theorem scanSign_append (sg t : List Char) (hsg : sg = [] ∨ sg = ['+'] ∨ sg = ['-'])
    (ht : ∀ c, t.head? = some c → c ≠ '-' ∧ c ≠ '+') :
    scanSign (sg ++ t) = (decide (sg = ['-']), t) := by
  rcases hsg with rfl | rfl | rfl
  · cases t with
    | nil => rfl
    | cons c cs =>
      have := ht c (by simp)
      simp only [List.nil_append]
      unfold scanSign
      split
      · rename_i heq; simp at heq; exact absurd heq.1 this.1
      · rename_i heq; simp at heq; exact absurd heq.1 this.2
      · rfl
  · rfl
  · rfl

theorem scanRadix_subject {base radix : Nat} (hb : base = 0 ∨ base = 10 ∨ base = 16)
    {px ds rest : List Char} {n : Nat} (hr : RadixOf base px ds radix)
    (hds : IsNumeral radix ds n) (hrest : SepHead rest) :
    scanRadix base (px ++ (ds ++ rest)) = (radix, ds ++ rest) ∧ radix ≤ 16 := by
  obtain ⟨hne, hall, _⟩ := hds
  have hsep : ∀ x, rest.head? = some x → x ≠ 'x' ∧ x ≠ 'X' := by
    intro x hx
    rcases hrest x hx with rfl | rfl | rfl <;> decide
  cases ds with
  | nil => exact absurd rfl hne
  | cons c cs =>
    have second : radix ≤ 16 → ∀ x, (cs ++ rest).head? = some x → x ≠ 'x' ∧ x ≠ 'X' := by
      intro h16 x hx
      cases cs with
      | nil => exact hsep x hx
      | cons d ds =>
        simp only [List.cons_append, List.head?_cons, Option.some.injEq] at hx
        subst hx
        have := digit_not_special h16 (hall d (by simp))
        exact ⟨this.2.2.2.2.2.1, this.2.2.2.2.2.2.1⟩
    rcases hr with ⟨rfl, hb0, rfl⟩ | ⟨rfl, rfl, h0, rfl⟩ | ⟨rfl, rfl, h0, rfl⟩ | ⟨hpx, hb16, rfl⟩
    · have h16 : radix ≤ 16 := by omega
      refine ⟨?_, h16⟩
      apply scanRadix_plain hb0
      intro c' x _ hx
      exact second h16 x (by simpa using hx)
    · refine ⟨?_, by norm_num⟩
      have hc0 : c = '0' := by simpa using h0
      subst hc0
      simp only [List.nil_append, List.cons_append]
      unfold scanRadix
      split
      · rename_i x d t heq
        simp only [List.cons.injEq, true_and] at heq
        have := second (by norm_num) x (by rw [heq]; rfl)
        simp [this.1, this.2]
      · rfl
      · rename_i hno
        exact absurd rfl (hno (cs ++ rest))
    · refine ⟨?_, by norm_num⟩
      have h0 : c ≠ '0' := fun e => h0 (by simp [e])
      simp only [List.nil_append, List.cons_append]
      unfold scanRadix
      split
      · rename_i x d t heq
        simp only [List.cons.injEq] at heq
        exact absurd heq.1 h0
      · rename_i heq
        simp only [List.cons.injEq] at heq
        exact absurd heq.1 h0
      · rfl
    · refine ⟨?_, by norm_num⟩
      have hc := hall c (by simp)
      rcases hpx with rfl | rfl
      · simp [scanRadix, hb16, hc]
      · simp [scanRadix, hb16, hc]

theorem strtoul_of_subject {base : Nat} (hb : base = 0 ∨ base = 10 ∨ base = 16)
    {sl rest : List Char} {v : Nat} (h : IsSubject base sl v) (hrest : SepHead rest) :
    strtoul (sl ++ rest) base = (v, rest) := by
  obtain ⟨ws, sg, px, ds, radix, n, rfl, hws, hsg, hr, hds, rfl⟩ := h
  obtain ⟨hrad, h16⟩ := scanRadix_subject hb hr hds hrest
  obtain ⟨hne, hall, hval⟩ := hds
  obtain ⟨c, cs, rfl⟩ := List.exists_cons_of_ne_nil hne
  have hc := hall c (by simp)
  have hcf := digit_char_facts (digitOf_isSome_digitVal hc)
  have z := digit_char_facts (c := '0') (by decide)
  -- head of `px ++ ds ++ rest` is `0` or the first digit
  have hpx : ∀ x, (px ++ (c :: cs ++ rest)).head? = some x → x = '0' ∨ x = c := by
    intro x hx
    rcases hr with ⟨rfl, _⟩ | ⟨rfl, _⟩ | ⟨rfl, _⟩ | ⟨hp, _⟩
    · right; simpa using hx.symm
    · right; simpa using hx.symm
    · right; simpa using hx.symm
    · rcases hp with rfl | rfl <;> (left; simpa using hx.symm)
  have hsgh : ∀ x, (sg ++ (px ++ (c :: cs ++ rest))).head? = some x → isspace x = false := by
    intro x hx
    rcases hsg with rfl | rfl | rfl
    · rcases hpx x (by simpa using hx) with rfl | rfl
      · exact z.2.2.2.2.2
      · exact hcf.2.2.2.2.2
    · simp at hx; subst hx; decide
    · simp at hx; subst hx; decide
  have e1 : List.dropWhile isspace (ws ++ (sg ++ (px ++ (c :: cs))) ++ rest)
      = sg ++ (px ++ (c :: cs ++ rest)) := by
    have : ws ++ (sg ++ (px ++ (c :: cs))) ++ rest = ws ++ (sg ++ (px ++ (c :: cs ++ rest))) := by
      simp [List.append_assoc]
    rw [this]
    exact dropWhile_isspace_append ws _ hws hsgh
  have e2 : scanSign (sg ++ (px ++ (c :: cs ++ rest)))
      = (decide (sg = ['-']), px ++ (c :: cs ++ rest)) := by
    apply scanSign_append sg _ hsg
    intro x hx
    rcases hpx x hx with rfl | rfl
    · exact ⟨z.2.2.2.1, z.2.2.2.2.1⟩
    · exact ⟨hcf.2.2.2.1, hcf.2.2.2.2.1⟩
  have e4 := scanDigits_append (c :: cs) rest hall (hrest.not_digit radix) 0
  rw [hval] at e4
  unfold strtoul
  simp only [e1, e2, hrad]
  simp only [List.cons_append] at e4 ⊢
  simp only [hc, if_true, e4, subjectValue]
  by_cases hn : n > ULONG_MAX
  · simp [hn]
  · simp [hn]

theorem scanDigits_spec (b : Nat) : ∀ (s : List Char) (acc : Nat),
    ∃ ds, s = ds ++ (scanDigits b acc s).2 ∧ (∀ c ∈ ds, (digitOf b c).isSome = true) ∧
      (scanDigits b acc s).1 = valOf b acc ds := by
  intro s
  induction s with
  | nil => intro acc; exact ⟨[], by simp [scanDigits], by simp, by simp [scanDigits, valOf]⟩
  | cons c cs ih =>
    intro acc
    cases hd : digitOf b c with
    | none => exact ⟨[], by simp [scanDigits, hd], by simp, by simp [scanDigits, hd, valOf]⟩
    | some d =>
      obtain ⟨ds, h1, h2, h3⟩ := ih (acc * b + d)
      have hg : (digitVal c).getD 0 = d := by
        have := digitOf_getD (b := b) (c := c) (by simp [hd])
        rw [hd] at this
        exact (Option.some.inj this).symm
      refine ⟨c :: ds, ?_, ?_, ?_⟩
      · simp only [scanDigits, hd, List.cons_append]
        rw [← h1]
      · intro x hx
        rcases List.mem_cons.mp hx with rfl | hx
        · simp [hd]
        · exact h2 x hx
      · simp only [scanDigits, hd]
        rw [h3]
        simp [valOf, hg]

theorem scanSign_spec (s : List Char) :
    ∃ sg, s = sg ++ (scanSign s).2 ∧ (sg = [] ∨ sg = ['+'] ∨ sg = ['-']) ∧
      (scanSign s).1 = decide (sg = ['-']) := by
  unfold scanSign
  split
  · exact ⟨['-'], rfl, Or.inr (Or.inr rfl), rfl⟩
  · exact ⟨['+'], rfl, Or.inr (Or.inl rfl), rfl⟩
  · exact ⟨[], rfl, Or.inl rfl, rfl⟩

theorem scanRadix_spec (base : Nat) (s : List Char) :
    ∃ px, s = px ++ (scanRadix base s).2 ∧
      ((px = [] ∧ base ≠ 0 ∧ (scanRadix base s).1 = base) ∨
       (px = [] ∧ base = 0 ∧ s.head? = some '0' ∧ (scanRadix base s).1 = 8) ∨
       (px = [] ∧ base = 0 ∧ s.head? ≠ some '0' ∧ (scanRadix base s).1 = 10) ∨
       ((px = ['0', 'x'] ∨ px = ['0', 'X']) ∧ (base = 0 ∨ base = 16) ∧
          (scanRadix base s).1 = 16)) := by
  unfold scanRadix
  split
  · rename_i x d t
    by_cases hc : (base = 0 ∨ base = 16) ∧ (x = 'x' ∨ x = 'X') ∧ (digitOf 16 d).isSome = true
    · rw [if_pos hc]
      obtain ⟨hb, hx, _⟩ := hc
      refine ⟨['0', x], rfl, Or.inr (Or.inr (Or.inr ⟨?_, hb, rfl⟩))⟩
      rcases hx with rfl | rfl
      · exact Or.inl rfl
      · exact Or.inr rfl
    · rw [if_neg hc]
      by_cases hb : base = 0
      · rw [if_pos hb]
        exact ⟨[], rfl, Or.inr (Or.inl ⟨rfl, hb, rfl, rfl⟩)⟩
      · rw [if_neg hb]
        exact ⟨[], rfl, Or.inl ⟨rfl, hb, rfl⟩⟩
  · by_cases hb : base = 0
    · exact ⟨[], by simp [hb], Or.inr (Or.inl ⟨rfl, hb, rfl, by simp [hb]⟩)⟩
    · exact ⟨[], by simp [hb], Or.inl ⟨rfl, hb, by simp [hb]⟩⟩
  · rename_i h1 h2
    by_cases hb : base = 0
    · refine ⟨[], by simp [hb], Or.inr (Or.inr (Or.inl ⟨rfl, hb, ?_, by simp [hb]⟩))⟩
      intro h0
      cases s with
      | nil => simp at h0
      | cons c cs =>
        simp only [List.head?_cons, Option.some.injEq] at h0
        subst h0
        exact h2 cs rfl
    · exact ⟨[], by simp [hb], Or.inl ⟨rfl, hb, by simp [hb]⟩⟩

theorem subject_of_strtoul (s : List Char) (base : Nat)
    (he : (strtoul s base).2.length ≠ s.length) :
    ∃ sl, s = sl ++ (strtoul s base).2 ∧ IsSubject base sl (strtoul s base).1 := by
  obtain ⟨sg, hsg1, hsg2, hsg3⟩ := scanSign_spec (s.dropWhile isspace)
  obtain ⟨px, hpx1, hpx2⟩ := scanRadix_spec base (scanSign (s.dropWhile isspace)).2
  have hws : s = s.takeWhile isspace ++ s.dropWhile isspace :=
    (List.takeWhile_append_dropWhile isspace s).symm
  unfold strtoul at he ⊢
  simp only at he ⊢
  cases hp : (scanRadix base (scanSign (s.dropWhile isspace)).2).2 with
  | nil => simp [hp] at he
  | cons c cs =>
    simp only [hp] at he ⊢
    by_cases hc : (digitOf (scanRadix base (scanSign (s.dropWhile isspace)).2).1 c).isSome = true
    · simp only [hc, if_true] at he ⊢
      have hcd := digitOf_getD hc
      obtain ⟨ds, hd1, hd2, hd3⟩ :=
        scanDigits_spec (scanRadix base (scanSign (s.dropWhile isspace)).2).1 cs
          (0 * (scanRadix base (scanSign (s.dropWhile isspace)).2).1 + (digitVal c).getD 0)
      have hstep : scanDigits (scanRadix base (scanSign (s.dropWhile isspace)).2).1 0 (c :: cs)
          = scanDigits (scanRadix base (scanSign (s.dropWhile isspace)).2).1
              (0 * (scanRadix base (scanSign (s.dropWhile isspace)).2).1 + (digitVal c).getD 0)
              cs := by
        simp only [scanDigits, hcd]
      rw [hstep]
      refine ⟨s.takeWhile isspace ++ (sg ++ (px ++ (c :: ds))), ?_, ?_⟩
      · have e : s.dropWhile isspace = sg ++ (px ++ (c :: cs)) := by
          rw [← hp, ← hpx1, ← hsg1]
        calc s = s.takeWhile isspace ++ s.dropWhile isspace := hws
          _ = s.takeWhile isspace ++ (sg ++ (px ++ (c :: cs))) := by rw [e]
          _ = _ := by
            conv_lhs => rw [hd1]
            simp [List.append_assoc]
      · refine ⟨s.takeWhile isspace, sg, px, c :: ds,
          (scanRadix base (scanSign (s.dropWhile isspace)).2).1,
          valOf (scanRadix base (scanSign (s.dropWhile isspace)).2).1 0 (c :: ds),
          rfl, ?_, hsg2, ?_, ⟨by simp, ?_, rfl⟩, ?_⟩
        · intro x hx
          exact (List.mem_takeWhile_imp hx)
        · rw [hp] at hpx1
          rcases hpx2 with ⟨h1, h2, h3⟩ | ⟨h1, h2, h3, h4⟩ | ⟨h1, h2, h3, h4⟩ | h
          · exact Or.inl ⟨h1, h2, h3⟩
          · refine Or.inr (Or.inl ⟨h1, h2, ?_, h4⟩)
            rw [hpx1, h1] at h3
            simpa using h3
          · refine Or.inr (Or.inr (Or.inl ⟨h1, h2, ?_, h4⟩))
            rw [hpx1, h1] at h3
            simpa using h3
          · exact Or.inr (Or.inr (Or.inr h))
        · intro x hx
          rcases List.mem_cons.mp hx with rfl | hx
          · exact hc
          · exact hd2 x hx
        · rw [hd3, hsg3]
          simp only [subjectValue, valOf, List.foldl_cons, decide_eq_true_eq]
    · simp [hc] at he

theorem IsSubject.ne_nil {base : Nat} {sl : List Char} {v : Nat} (h : IsSubject base sl v) :
    sl ≠ [] := by
  obtain ⟨ws, sg, px, ds, radix, n, rfl, _, _, _, hds, _⟩ := h
  have := hds.1
  simp [this]

theorem toULong_of_nonneg {x : Int} (h0 : 0 ≤ x) (h1 : x < 2 ^ 31) :
    ((toULong x : Nat) : Int) = x := by
  unfold toULong
  rw [Int.emod_eq_of_lt h0 (show x < 2 ^ 64 by omega)]
  exact Int.toNat_of_nonneg h0

theorem get_number_of_subject {base : Nat} (hb : base = 0 ∨ base = 10 ∨ base = 16)
    {sl rest : List Char} {v : Nat} (h : IsSubject base sl v) (hrest : SepHead rest)
    (old min max : Int) (hmin : 0 ≤ min) (hmm : min ≤ max) (hmax : max < 2 ^ 31) :
    get_number (sl ++ rest) rest base old min max
      = if min ≤ (v : Int) ∧ (v : Int) ≤ max then (0, (v : Int)) else (-1, old) := by
  have hlen : 0 < sl.length := List.length_pos.mpr h.ne_nil
  have h1 : ¬ rest.length = (sl ++ rest).length := by
    rw [List.length_append]; omega
  unfold get_number
  rw [strtoul_of_subject hb h hrest]
  simp only [h1, if_false, ne_eq, not_true_eq_false]
  have e1 := toULong_of_nonneg hmin (by omega)
  have e2 := toULong_of_nonneg (le_trans hmin hmm) hmax
  by_cases hr : min ≤ (v : Int) ∧ (v : Int) ≤ max
  · have h2 : ¬ (v < toULong min ∨ v > toULong max) := by omega
    have h3 : toInt32 v = (v : Int) := by unfold toInt32; split <;> omega
    rw [if_neg h2, if_pos hr, h3]
  · have h2 : v < toULong min ∨ v > toULong max := by omega
    rw [if_pos h2, if_neg hr]

theorem get_number_fail (s e : List Char) (base : Nat) (old min max : Int)
    (h : (get_number s e base old min max).1 ≠ 0) :
    get_number s e base old min max = (-1, old) := by
  unfold get_number at h ⊢
  by_cases h1 : (strtoul s base).2.length = s.length
  · simp [h1]
  · by_cases h2 : (strtoul s base).2.length ≠ e.length
    · simp [h1, h2]
    · by_cases h3 : (strtoul s base).1 < toULong min ∨ (strtoul s base).1 > toULong max
      · simp [h1, h2, h3]
      · simp [h1, h2, h3] at h

theorem subject_of_get_number (sl rest : List Char) (base : Nat) (old min max : Int)
    (h : (get_number (sl ++ rest) rest base old min max).1 = 0) :
    IsSubject base sl (strtoul (sl ++ rest) base).1 ∧
      (strtoul (sl ++ rest) base).2 = rest := by
  unfold get_number at h
  by_cases h1 : (strtoul (sl ++ rest) base).2.length = (sl ++ rest).length
  · simp [h1] at h
  · by_cases h2 : (strtoul (sl ++ rest) base).2.length ≠ rest.length
    · simp [h1, h2] at h
    · obtain ⟨sl', e, hs⟩ := subject_of_strtoul (sl ++ rest) base h1
      have h2' : (strtoul (sl ++ rest) base).2.length = rest.length := by
        by_contra hh; exact h2 hh
      obtain ⟨e1, e2⟩ := List.append_inj' e h2'.symm
      subst e1
      exact ⟨hs, e2.symm⟩

/-- C11 (as amended): with `end` at a separator or at the end of the string,
`get_number` returns 0 exactly when the slice `[s, end)` is a whole `strtoul`
subject (optional white space, optional sign, optional `0x` prefix for base 16
or 0, then a non-empty run of digits of the radix) whose `strtoul` value lies in
`[min, max]` (for `0 ≤ min ≤ max`); it then stores that value, and in every
other case it returns -1 and stores nothing. -/
theorem get_number_accepts (base : Nat) (sl rest : List Char) (old min max : Int)
    (hb : base = 0 ∨ base = 10 ∨ base = 16) (hrest : SepHead rest)
    (hmin : 0 ≤ min) (hmm : min ≤ max) (hmax : max < 2 ^ 31) :
    ((get_number (sl ++ rest) rest base old min max).1 = 0 ↔
      ∃ v : Nat, IsSubject base sl v ∧ min ≤ (v : Int) ∧ (v : Int) ≤ max) ∧
    (∀ v : Nat, IsSubject base sl v → min ≤ (v : Int) → (v : Int) ≤ max →
      get_number (sl ++ rest) rest base old min max = (0, (v : Int))) ∧
    ((get_number (sl ++ rest) rest base old min max).1 ≠ 0 →
      get_number (sl ++ rest) rest base old min max = (-1, old)) := by
  have fwd : ∀ v : Nat, IsSubject base sl v → min ≤ (v : Int) → (v : Int) ≤ max →
      get_number (sl ++ rest) rest base old min max = (0, (v : Int)) := by
    intro v hv h1 h2
    rw [get_number_of_subject hb hv hrest old min max hmin hmm hmax, if_pos ⟨h1, h2⟩]
  refine ⟨⟨?_, ?_⟩, fwd, get_number_fail _ _ _ _ _ _⟩
  · intro h
    obtain ⟨hs, _⟩ := subject_of_get_number sl rest base old min max h
    refine ⟨_, hs, ?_⟩
    rw [get_number_of_subject hb hs hrest old min max hmin hmm hmax] at h
    by_contra hc
    rw [if_neg hc] at h
    simp at h
  · rintro ⟨v, hv, h1, h2⟩
    rw [fwd v hv h1 h2]

/-- Instances of C11 as amended: the slices `" +0x1F"` (base 16, before `.`) and
`"-0"` (base 10, at the end of the string) are accepted. -/
theorem get_number_accepts_witness :
    ((16 = 0 ∨ 16 = 10 ∨ 16 = 16) ∧ SepHead ['.'] ∧ (0 : Int) ≤ 0 ∧ (0 : Int) ≤ 31 ∧
      (31 : Int) < 2 ^ 31) ∧
    get_number (" +0x1F".toList ++ ['.']) ['.'] 16 7 0 31 = (0, 31) ∧
    get_number ("-0".toList ++ []) [] 10 7 0 31 = (0, 0) ∧
    (((get_number (" +0x1F".toList ++ ['.']) ['.'] 16 7 0 31).1 = 0 ↔
      ∃ v : Nat, IsSubject 16 " +0x1F".toList v ∧ (0 : Int) ≤ (v : Int) ∧ (v : Int) ≤ 31) ∧
    (∀ v : Nat, IsSubject 16 " +0x1F".toList v → (0 : Int) ≤ (v : Int) → (v : Int) ≤ 31 →
      get_number (" +0x1F".toList ++ ['.']) ['.'] 16 7 0 31 = (0, (v : Int))) ∧
    ((get_number (" +0x1F".toList ++ ['.']) ['.'] 16 7 0 31).1 ≠ 0 →
      get_number (" +0x1F".toList ++ ['.']) ['.'] 16 7 0 31 = (-1, 7))) :=
  ⟨⟨by decide, SepHead.dot [], by decide, by decide, by decide⟩, by decide, by decide,
    get_number_accepts 16 " +0x1F".toList ['.'] 7 0 31 (by decide) (SepHead.dot [])
      (by decide) (by decide) (by decide)⟩

/-- C11 (as stated) fails: on the slices `"+5"` and `" 5"` in base 10, which are
not unsigned integer numerals, `get_number` returns 0 and stores 5. -/
theorem get_number_sign_and_space_accepted :
    get_number "+5".toList [] 10 0 0 31 = (0, 5) ∧
    (¬ ∃ n, IsUnsignedNumeral 10 "+5".toList n) ∧
    get_number " 5".toList [] 10 0 0 31 = (0, 5) ∧
    (¬ ∃ n, IsUnsignedNumeral 10 " 5".toList n) := by
  have key : ∀ (c : Char) (t : List Char), (digitOf 10 c).isSome = false →
      ¬ ∃ n, IsUnsignedNumeral 10 (c :: t) n := by
    rintro c t hc ⟨n, px, ds, radix, e, hr, hds⟩
    rcases hr with ⟨rfl, _, rfl⟩ | ⟨_, h, _⟩ | ⟨_, h, _⟩ | ⟨_, h, _⟩
    · simp only [List.nil_append] at e
      have := hds.2.1 c (by rw [← e]; simp)
      rw [hc] at this
      exact absurd this (by decide)
    · exact absurd h (by decide)
    · exact absurd h (by decide)
    · rcases h with h | h <;> exact absurd h (by decide)
  exact ⟨by decide, key '+' _ (by decide), by decide, key ' ' _ (by decide)⟩

theorem isDigit_digitOf {c : Char} (h : c.isDigit = true) : (digitOf 10 c).isSome = true := by
  unfold Char.isDigit at h
  simp only [Bool.and_eq_true, decide_eq_true_eq, ge_iff_le] at h
  have h1 : 48 ≤ c.toNat := h.1
  have h2 : c.toNat ≤ 57 := h.2
  have e0 : '0'.toNat = 48 := rfl
  have e9 : '9'.toNat = 57 := rfl
  unfold digitOf digitVal
  rw [e0, e9, if_pos ⟨h1, h2⟩]
  have : c.toNat - 48 < 10 := by omega
  simp [this]

theorem IsNumeral.subject {b : Nat} (hb : b = 10 ∨ b = 16) {ds : List Char} {n : Nat}
    (h : IsNumeral b ds n) : IsSubject b ds (subjectValue [] n) :=
  ⟨[], [], [], ds, b, n, by simp, by simp, Or.inl rfl,
    Or.inl ⟨rfl, by omega, rfl⟩, h, rfl⟩

theorem strpbrk_skip {a t acc : List Char} (h : ∀ x ∈ a, x ∉ acc) :
    strpbrk (a ++ t) acc = strpbrk t acc := by
  induction a with
  | nil => rfl
  | cons x xs ih =>
    have hx : x ∉ acc := h x (by simp)
    simp only [List.cons_append, strpbrk, hx, if_false]
    exact ih (fun y hy => h y (by simp [hy]))

theorem strpbrk_length (t acc : List Char) : ((strpbrk t acc).getD []).length ≤ t.length := by
  induction t with
  | nil => simp [strpbrk]
  | cons x xs ih =>
    by_cases hx : x ∈ acc
    · simp [strpbrk, hx]
    · simp only [strpbrk, hx, if_false]
      exact le_trans ih (by simp)

theorem get_number_mismatch {s e : List Char} {b : Nat} (old min max : Int)
    (h : (strtoul s b).2.length ≠ e.length) :
    get_number s e b old min max = (-1, old) := by
  unfold get_number
  by_cases h1 : (strtoul s b).2.length = s.length
  · simp [h1]
  · simp [h1, h]

/-- A Clause-22 descriptor whose register digits are followed by `:` is
rejected, whatever comes before the first `.` and after the `:`. -/
theorem parse_c22_reg_colon_after_reg (A R T : List Char) (ri : reg_info) {n : Nat}
    (hA : '.' ∉ A) (hR : IsNumeral 10 R n) :
    (parse_c22_reg (A ++ '.' :: (R ++ ':' :: T)) ri).1 = -1 := by
  have s1 : strchr (A ++ '.' :: (R ++ ':' :: T)) '.' = some ('.' :: (R ++ ':' :: T)) :=
    strchr_append hA
  have hskip : strpbrk (R ++ ':' :: T) ['_', '.'] = strpbrk T ['_', '.'] := by
    have hs := hR.no_sep (by norm_num)
    have : R ++ ':' :: T = (R ++ [':']) ++ T := by simp
    rw [this]
    apply strpbrk_skip
    intro x hx hm
    simp only [List.mem_cons, List.mem_singleton, List.not_mem_nil, or_false] at hm
    rcases List.mem_append.mp hx with hx | hx
    · rcases hm with rfl | rfl
      · exact hs.2.1 hx
      · exact hs.1 hx
    · simp only [List.mem_singleton] at hx
      subst hx
      rcases hm with h | h <;> exact absurd h (by decide)
  have hst := strtoul_of_subject (Or.inr (Or.inl rfl)) (hR.subject (Or.inl rfl))
    (SepHead.colon T)
  have hlen := strpbrk_length T ['_', '.']
  have g2 : ∀ old, get_number (R ++ ':' :: T) ((strpbrk T ['_', '.']).getD []) 10 old 0 31
      = (-1, old) := by
    intro old
    apply get_number_mismatch
    rw [hst]
    simp only [List.length_cons]
    omega
  simp only [parse_c22_reg, s1, List.tail_cons, hskip, g2]
  by_cases h1 : (get_number (A ++ '.' :: (R ++ ':' :: T)) ('.' :: (R ++ ':' :: T)) 16
      ri.phy 0 31).1 = 0
  · simp [h1]
  · simp [h1]

/-- C12: a Clause-22 `bit_l` clause cannot come without a `.`-introduced `bit_h`
clause: `parse_c22_reg` returns nonzero (-1) on every string
`A ++ "." ++ R ++ ":" ++ T` with no `.` in `A` and `R` a non-empty string of
decimal digits. -/
theorem parse_c22_reg_colon_without_dot (A R T : List Char) (ri : reg_info)
    (hA : '.' ∉ A) (hR : R ≠ []) (hRd : ∀ c ∈ R, c.isDigit = true) :
    (parse_c22_reg (A ++ ['.'] ++ R ++ [':'] ++ T) ri).1 ≠ 0 ∧
    (parse_c22_reg (A ++ ['.'] ++ R ++ [':'] ++ T) ri).1 = -1 := by
  have hn : IsNumeral 10 R (valOf 10 0 R) := ⟨hR, fun c hc => isDigit_digitOf (hRd c hc), rfl⟩
  have := parse_c22_reg_colon_after_reg A R T ri hA hn
  have e : A ++ ['.'] ++ R ++ [':'] ++ T = A ++ '.' :: (R ++ ':' :: T) := by simp
  rw [e, this]
  exact ⟨by decide, rfl⟩

/-- The spec example for C12: `"1f.2:3"`. -/
theorem parse_c22_reg_colon_without_dot_witness :
    ('.' ∉ "1f".toList ∧ "2".toList ≠ [] ∧ ∀ c ∈ "2".toList, c.isDigit = true) ∧
    "1f".toList ++ ['.'] ++ "2".toList ++ [':'] ++ "3".toList = "1f.2:3".toList ∧
    ((parse_c22_reg ("1f".toList ++ ['.'] ++ "2".toList ++ [':'] ++ "3".toList)
        init_reg_info).1 ≠ 0 ∧
     (parse_c22_reg ("1f".toList ++ ['.'] ++ "2".toList ++ [':'] ++ "3".toList)
        init_reg_info).1 = -1) :=
  ⟨⟨by decide, by decide, by decide⟩, by decide,
    parse_c22_reg_colon_without_dot "1f".toList "2".toList "3".toList init_reg_info
      (by decide) (by decide) (by decide)⟩

/-- C17: `usage` prints the Clause-22 syntax `phy.reg[_page][:bit_h[.bit_l]]`,
and `parse_c22_reg` rejects that form: it returns -1 on
`hex(p).decimal(r):decimal(h).decimal(l)` for all `p`, `r`, `h`, `l`, among
them `"1f.2:13.4"`, while it accepts `"1f.2.13:4"`. -/
theorem parse_c22_reg_rejects_usage_form (p r h l : Nat) :
    " c22: REGSTR: phy.reg[_page][:bit_h[.bit_l]]\n".toList <:+: usage ∧
    (parse_c22_reg (hex p ++ ['.'] ++ decimal r ++ [':'] ++ decimal h ++ ['.'] ++ decimal l)
      init_reg_info).1 = -1 ∧
    hex 31 ++ ['.'] ++ decimal 2 ++ [':'] ++ decimal 13 ++ ['.'] ++ decimal 4
      = "1f.2:13.4".toList ∧
    (parse_c22_reg "1f.2:13.4".toList init_reg_info).1 = -1 ∧
    (parse_c22_reg "1f.2.13:4".toList init_reg_info).1 = 0 := by
  refine ⟨⟨("Usage:\n" ++ "mdio (c22|c45) read IFNAME REGSTR\n" ++
      "mdio (c22|c45) read IFNAME REGSTR DATA\n" ++ "where\n").toList,
    " c45: REGSTR: phy.dev.reg[:bit_h[.bit_l]]\n".toList, rfl⟩, ?_, by decide, by decide,
    by decide⟩
  have := parse_c22_reg_colon_after_reg (hex p) (decimal r) (decimal h ++ '.' :: decimal l)
    init_reg_info ((hex_numeral p).no_sep (by norm_num)).1 (decimal_numeral r)
  simpa only [List.append_assoc, List.singleton_append] using this

/-! ## The last character of an accepted descriptor -/

theorem last_of_suffix {t s : List Char} {P : Char → Prop} (hs : t <:+ s)
    (h : ∃ c, t.getLast? = some c ∧ P c) : ∃ c, s.getLast? = some c ∧ P c := by
  obtain ⟨a, rfl⟩ := hs
  obtain ⟨c, hc, hp⟩ := h
  have hne : t ≠ [] := by
    rintro rfl
    simp at hc
  refine ⟨c, ?_, hp⟩
  rw [List.getLast?_append_of_ne_nil _ hne, hc]

theorem strchr_getD_suffix (s : List Char) (c : Char) : (strchr s c).getD [] <:+ s := by
  induction s with
  | nil => simp [strchr]
  | cons x xs ih =>
    by_cases hx : x = c
    · simp [strchr, hx]
    · simp only [strchr, hx, if_false]
      exact ih.trans (List.suffix_cons x xs)

theorem strchr_suffix {s p : List Char} {c : Char} (h : strchr s c = some p) : p <:+ s := by
  have := strchr_getD_suffix s c
  rwa [h] at this

theorem strpbrk_getD_suffix (s acc : List Char) : (strpbrk s acc).getD [] <:+ s := by
  induction s with
  | nil => simp [strpbrk]
  | cons x xs ih =>
    by_cases hx : x ∈ acc
    · simp [strpbrk, hx]
    · simp only [strpbrk, hx, if_false]
      exact ih.trans (List.suffix_cons x xs)

theorem get_number_end_last (s : List Char) (b : Nat) (old min max : Int)
    (h : (get_number s [] b old min max).1 = 0) :
    ∃ c, s.getLast? = some c ∧ (digitVal c).isSome = true := by
  have h' : (get_number (s ++ []) [] b old min max).1 = 0 := by rwa [List.append_nil]
  obtain ⟨⟨ws, sg, px, ds, radix, n, e, _, _, _, hds, _⟩, _⟩ :=
    subject_of_get_number s [] b old min max h'
  have hsuf : ds <:+ s := by
    rw [e]
    exact ⟨ws ++ (sg ++ px), by simp⟩
  apply last_of_suffix hsuf
  have hne := hds.1
  refine ⟨ds.getLast hne, List.getLast?_eq_getLast _ hne, ?_⟩
  exact digitOf_isSome_digitVal (hds.2.1 _ (List.getLast_mem hne))

theorem parse_c22_bits_last (ptr : List Char) (ri ri' : reg_info)
    (h : parse_c22_bits ptr ri = (0, ri')) :
    ∃ c, ptr.tail.getLast? = some c ∧ (digitVal c).isSome = true := by
  simp only [parse_c22_bits] at h
  by_cases g1 : (get_number ptr.tail ((strchr ptr.tail ':').getD []) 10 ri.bit_h 0 31).1 = 0
  · simp only [g1, ne_eq, not_true_eq_false, if_false] at h
    by_cases hp : (strchr ptr.tail ':').getD [] = []
    · rw [hp] at g1
      exact get_number_end_last _ _ _ _ _ g1
    · simp only [hp, if_false] at h
      by_cases g2 : (get_number ((strchr ptr.tail ':').getD []).tail [] 10 ri.bit_l 0 31).1 = 0
      · exact last_of_suffix ((List.tail_suffix _).trans (strchr_getD_suffix _ _))
          (get_number_end_last _ _ _ _ _ g2)
      · simp [g2] at h
  · simp [g1] at h

theorem parse_c22_reg_last (s : List Char) (ri ri' : reg_info)
    (h : parse_c22_reg s ri = (0, ri')) :
    ∃ c, s.getLast? = some c ∧ (digitVal c).isSome = true := by
  simp only [parse_c22_reg] at h
  cases hs : strchr s '.' with
  | none => simp [hs] at h
  | some p1 =>
    have hp1 : p1.tail <:+ s := (List.tail_suffix _).trans (strchr_suffix hs)
    simp only [hs] at h
    by_cases g1 : (get_number s p1 16 ri.phy 0 0x1f).1 = 0
    · simp only [g1, ne_eq, not_true_eq_false, if_false] at h
      by_cases g2 : (get_number p1.tail ((strpbrk p1.tail ['_', '.']).getD []) 10 ri.reg 0
          31).1 = 0
      · simp only [g2, ne_eq, not_true_eq_false, if_false] at h
        by_cases hp2 : (strpbrk p1.tail ['_', '.']).getD [] = []
        · rw [hp2] at g2
          exact last_of_suffix hp1 (get_number_end_last _ _ _ _ _ g2)
        · have hs2 : (strpbrk p1.tail ['_', '.']).getD [] <:+ s :=
            (strpbrk_getD_suffix _ _).trans hp1
          simp only [hp2, if_false] at h
          by_cases hu : ((strpbrk p1.tail ['_', '.']).getD []).head? = some '_'
          · simp only [hu, if_true] at h
            by_cases g3 : (get_number ((strpbrk p1.tail ['_', '.']).getD []).tail
                ((strchr ((strpbrk p1.tail ['_', '.']).getD []).tail '.').getD []) 10
                ri.page 0 255).1 = 0
            · simp only [g3, ne_eq, not_true_eq_false, if_false] at h
              by_cases hp3 :
                  (strchr ((strpbrk p1.tail ['_', '.']).getD []).tail '.').getD [] = []
              · rw [hp3] at g3
                exact last_of_suffix ((List.tail_suffix _).trans hs2)
                  (get_number_end_last _ _ _ _ _ g3)
              · simp only [hp3, if_false] at h
                exact last_of_suffix
                  ((List.tail_suffix _).trans ((strchr_getD_suffix _ _).trans
                    ((List.tail_suffix _).trans hs2)))
                  (parse_c22_bits_last _ _ _ h)
            · simp [g3] at h
          · simp only [hu, if_false] at h
            exact last_of_suffix ((List.tail_suffix _).trans hs2)
              (parse_c22_bits_last _ _ _ h)
      · simp [g2] at h
    · simp [g1] at h

theorem parse_c45_reg_last (s : List Char) (ri ri' : reg_info)
    (h : parse_c45_reg s ri = (0, ri')) :
    ∃ c, s.getLast? = some c ∧ (digitVal c).isSome = true := by
  simp only [parse_c45_reg] at h
  cases hs : strchr s '.' with
  | none => simp [hs] at h
  | some p1 =>
    simp only [hs] at h
    by_cases g1 : (get_number s p1 16 ri.phy 0 0x1f).1 = 0
    · simp only [g1, ne_eq, not_true_eq_false, if_false] at h
      cases hs2 : strchr p1.tail '_' with
      | none => simp [hs2] at h
      | some p2 =>
        have hp2 : p2.tail <:+ s :=
          (List.tail_suffix _).trans ((strchr_suffix hs2).trans
            ((List.tail_suffix _).trans (strchr_suffix hs)))
        simp only [hs2] at h
        by_cases g2 : (get_number p1.tail p2 16 ri.dev 0 0x1f).1 = 0
        · simp only [g2, ne_eq, not_true_eq_false, if_false] at h
          by_cases g3 : (get_number p2.tail ((strchr p2.tail '.').getD []) 16 ri.reg 0x0
              0xffff).1 = 0
          · simp only [g3, ne_eq, not_true_eq_false, if_false] at h
            by_cases hp3 : (strchr p2.tail '.').getD [] = []
            · rw [hp3] at g3
              exact last_of_suffix hp2 (get_number_end_last _ _ _ _ _ g3)
            · have hs3 : ((strchr p2.tail '.').getD []).tail <:+ s :=
                (List.tail_suffix _).trans ((strchr_getD_suffix _ _).trans hp2)
              simp only [hp3, if_false] at h
              by_cases g4 : (get_number ((strchr p2.tail '.').getD []).tail
                  ((strchr ((strchr p2.tail '.').getD []).tail ':').getD []) 10 ri.bit_h 0
                  15).1 = 0
              · simp only [g4, ne_eq, not_true_eq_false, if_false] at h
                by_cases hp4 :
                    (strchr ((strchr p2.tail '.').getD []).tail ':').getD [] = []
                · rw [hp4] at g4
                  exact last_of_suffix hs3 (get_number_end_last _ _ _ _ _ g4)
                · simp only [hp4, if_false] at h
                  by_cases g5 : (get_number
                      ((strchr ((strchr p2.tail '.').getD []).tail ':').getD []).tail [] 10
                      ri.bit_l 0 15).1 = 0
                  · exact last_of_suffix
                      ((List.tail_suffix _).trans ((strchr_getD_suffix _ _).trans hs3))
                      (get_number_end_last _ _ _ _ _ g5)
                  · simp [g5] at h
              · simp [g4] at h
          · simp [g3] at h
        · simp [g2] at h
    · simp [g1] at h

/-- C13: a separator must be followed by a non-empty field: on every string whose
last character is `.`, `_` or `:`, both `parse_c45_reg` and `parse_c22_reg`
return nonzero. -/
theorem parse_reg_trailing_separator (s : List Char) (c : Char) (ri : reg_info)
    (hlast : s.getLast? = some c) (hc : c = '.' ∨ c = '_' ∨ c = ':') :
    (parse_c45_reg s ri).1 ≠ 0 ∧ (parse_c22_reg s ri).1 ≠ 0 := by
  have hnd : (digitVal c).isSome = false := by
    rcases hc with rfl | rfl | rfl <;> decide
  constructor
  · intro h
    obtain ⟨d, hd, hdig⟩ := parse_c45_reg_last s ri _ (Prod.ext h rfl)
    rw [hlast] at hd
    cases hd
    rw [hnd] at hdig
    exact absurd hdig (by decide)
  · intro h
    obtain ⟨d, hd, hdig⟩ := parse_c22_reg_last s ri _ (Prod.ext h rfl)
    rw [hlast] at hd
    cases hd
    rw [hnd] at hdig
    exact absurd hdig (by decide)

/-- The spec example for C13: `"10.2_3."`. -/
theorem parse_reg_trailing_separator_witness :
    ("10.2_3.".toList.getLast? = some '.' ∧ ('.' = '.' ∨ '.' = '_' ∨ '.' = ':')) ∧
    (parse_c45_reg "10.2_3.".toList init_reg_info).1 = -1 ∧
    ((parse_c45_reg "10.2_3.".toList init_reg_info).1 ≠ 0 ∧
      (parse_c22_reg "10.2_3.".toList init_reg_info).1 ≠ 0) :=
  ⟨⟨by decide, by decide⟩, by decide,
    parse_reg_trailing_separator "10.2_3.".toList '.' init_reg_info (by decide) (by decide)⟩

/-! ## Descriptors without a bit clause, bit bounds and bit order -/

theorem get_number_numeral_cases {b : Nat} (hb : b = 10 ∨ b = 16) {ds rest : List Char}
    {n : Nat} (h : IsNumeral b ds n) (hrest : SepHead rest) (old max : Int)
    (h0 : 0 ≤ max) (hmax : max < 2 ^ 31) :
    get_number (ds ++ rest) rest b old 0 max
      = if (n : Int) ≤ max then (0, (n : Int)) else (-1, old) := by
  have hb' : b = 0 ∨ b = 10 ∨ b = 16 := Or.inr hb
  rw [get_number_of_subject hb' (h.subject hb) hrest old 0 max (le_refl 0) h0 hmax]
  by_cases hn : (n : Int) ≤ max
  · have hv : subjectValue [] n = n := by
      unfold subjectValue ULONG_MAX
      rw [if_neg (by omega)]
      simp
    rw [hv, if_pos ⟨by omega, hn⟩, if_pos hn]
  · rw [if_neg hn]
    by_cases h1 : n > ULONG_MAX
    · have hv : subjectValue [] n = ULONG_MAX := by
        unfold subjectValue
        rw [if_pos h1]
      rw [hv, if_neg (by unfold ULONG_MAX; omega)]
    · have hv : subjectValue [] n = n := by
        unfold subjectValue
        rw [if_neg h1]
        simp
      rw [hv, if_neg (by omega)]

theorem get_number_numeral_end_cases {b : Nat} (hb : b = 10 ∨ b = 16) {ds : List Char}
    {n : Nat} (h : IsNumeral b ds n) (old max : Int) (h0 : 0 ≤ max) (hmax : max < 2 ^ 31) :
    get_number ds [] b old 0 max
      = if (n : Int) ≤ max then (0, (n : Int)) else (-1, old) := by
  have := get_number_numeral_cases hb h SepHead.nil old max h0 hmax
  rwa [List.append_nil] at this

/-- A Clause-22 descriptor `P.R` followed by `.` goes on to the bit clause with
`phy` and `reg` stored. -/
theorem parse_c22_reg_to_bits {P R t : List Char} {p r : Nat} (ri : reg_info)
    (hP : IsNumeral 16 P p) (hR : IsNumeral 10 R r) (hp : p ≤ 31) (hr : r ≤ 31) :
    parse_c22_reg (P ++ '.' :: (R ++ '.' :: t)) ri
      = parse_c22_bits ('.' :: t) { ri with phy := (p : Int), reg := (r : Int) } := by
  have s1 : strchr (P ++ '.' :: (R ++ '.' :: t)) '.' = some ('.' :: (R ++ '.' :: t)) :=
    strchr_append (hP.no_sep (by norm_num)).1
  have g1 := get_number_numeral (Or.inr rfl) hP (SepHead.dot (R ++ '.' :: t)) ri.phy 0x1f
    (by norm_num) (by omega)
  have s2 : strpbrk (R ++ '.' :: t) ['_', '.'] = some ('.' :: t) :=
    strpbrk_numeral hR (Or.inr rfl)
  have g2 := get_number_numeral (Or.inl rfl) hR (SepHead.dot t) ri.reg 31 (by norm_num)
    (by omega)
  simp [parse_c22_reg, s1, g1, s2, g2]

theorem parse_c22_bits_single_cases {H : List Char} {h : Nat} (ri : reg_info)
    (hH : IsNumeral 10 H h) (c : Char) :
    parse_c22_bits (c :: H) ri
      = if h ≤ 31 then (0, { ri with bit_h := (h : Int), bit_l := (h : Int) })
        else (-1, ri) := by
  have s1 : strchr H ':' = none := strchr_none (hH.no_sep (by norm_num)).2.2
  have g1 := get_number_numeral_end_cases (Or.inl rfl) hH ri.bit_h 31 (by norm_num)
    (by norm_num)
  by_cases hh : h ≤ 31
  · have : (h : Int) ≤ 31 := by omega
    rw [if_pos this] at g1
    simp [parse_c22_bits, s1, g1, hh]
  · have : ¬ (h : Int) ≤ 31 := by omega
    rw [if_neg this] at g1
    simp [parse_c22_bits, s1, g1, hh]

/-- C14: a Clause-22 descriptor without a bit clause leaves the bit range absent:
for `p, r ≤ 31` and `g ≤ 255`, `parse_c22_reg` returns 0 on
`hex(p).decimal(r)` and on `hex(p).decimal(r)_decimal(g)` from a freshly
initialised `reg_info`, with `bit_h = -1` and `bit_l = -1`. -/
theorem parse_c22_reg_no_bits (p r g : Nat) (hp : p ≤ 31) (hr : r ≤ 31) (hg : g ≤ 255) :
    (parse_c22_reg (hex p ++ ['.'] ++ decimal r) init_reg_info
      = (0, { init_reg_info with phy := (p : Int), reg := (r : Int) }) ∧
     (parse_c22_reg (hex p ++ ['.'] ++ decimal r) init_reg_info).2.bit_h = -1 ∧
     (parse_c22_reg (hex p ++ ['.'] ++ decimal r) init_reg_info).2.bit_l = -1) ∧
    (parse_c22_reg (hex p ++ ['.'] ++ decimal r ++ ['_'] ++ decimal g) init_reg_info
      = (0, { init_reg_info with phy := (p : Int), reg := (r : Int), page := (g : Int) }) ∧
     (parse_c22_reg (hex p ++ ['.'] ++ decimal r ++ ['_'] ++ decimal g)
        init_reg_info).2.bit_h = -1 ∧
     (parse_c22_reg (hex p ++ ['.'] ++ decimal r ++ ['_'] ++ decimal g)
        init_reg_info).2.bit_l = -1) := by
  have hP := hex_numeral p
  have hR := decimal_numeral r
  have hG := decimal_numeral g
  have a : parse_c22_reg (hex p ++ '.' :: decimal r) init_reg_info
      = (0, { init_reg_info with phy := (p : Int), reg := (r : Int) }) := by
    have s1 : strchr (hex p ++ '.' :: decimal r) '.' = some ('.' :: decimal r) :=
      strchr_append (hP.no_sep (by norm_num)).1
    have g1 := get_number_numeral (Or.inr rfl) hP (SepHead.dot (decimal r))
      init_reg_info.phy 0x1f (by norm_num) (by omega)
    have s2 := strpbrk_none_numeral hR
    have g2 := get_number_numeral_end (Or.inl rfl) hR init_reg_info.reg 31 (by norm_num)
      (by omega)
    simp [parse_c22_reg, s1, g1, s2, g2]
  have b : parse_c22_reg (hex p ++ '.' :: (decimal r ++ '_' :: decimal g)) init_reg_info
      = (0, { init_reg_info with phy := (p : Int), reg := (r : Int), page := (g : Int) }) := by
    have s1 : strchr (hex p ++ '.' :: (decimal r ++ '_' :: decimal g)) '.'
        = some ('.' :: (decimal r ++ '_' :: decimal g)) :=
      strchr_append (hP.no_sep (by norm_num)).1
    have g1 := get_number_numeral (Or.inr rfl) hP
      (SepHead.dot (decimal r ++ '_' :: decimal g)) init_reg_info.phy 0x1f (by norm_num)
      (by omega)
    have s2 : strpbrk (decimal r ++ '_' :: decimal g) ['_', '.'] = some ('_' :: decimal g) :=
      strpbrk_numeral hR (Or.inl rfl)
    have g2 := get_number_numeral (Or.inl rfl) hR (SepHead.underscore (decimal g))
      init_reg_info.reg 31 (by norm_num) (by omega)
    have s3 : strchr (decimal g) '.' = none := strchr_none (hG.no_sep (by norm_num)).1
    have g3 := get_number_numeral_end (Or.inl rfl) hG init_reg_info.page 255 (by norm_num)
      (by omega)
    simp [parse_c22_reg, s1, g1, s2, g2, s3, g3]
  have ea : hex p ++ ['.'] ++ decimal r = hex p ++ '.' :: decimal r := by simp
  have eb : hex p ++ ['.'] ++ decimal r ++ ['_'] ++ decimal g
      = hex p ++ '.' :: (decimal r ++ '_' :: decimal g) := by simp
  rw [eb, ea, a, b]
  exact ⟨⟨rfl, rfl, rfl⟩, rfl, rfl, rfl⟩

/-- The spec examples for C14: `"1f.2_3"` and `"10.2_3"`; and `"1f.2"`. -/
theorem parse_c22_reg_no_bits_witness :
    (31 ≤ 31 ∧ 2 ≤ 31 ∧ 3 ≤ 255) ∧
    (hex 31 ++ ['.'] ++ decimal 2 ++ ['_'] ++ decimal 3 = "1f.2_3".toList ∧
     hex 16 ++ ['.'] ++ decimal 2 ++ ['_'] ++ decimal 3 = "10.2_3".toList ∧
     (parse_c22_reg "10.2_3".toList init_reg_info).1 = 0 ∧
     (parse_c22_reg "10.2_3".toList init_reg_info).2.bit_h = -1 ∧
     (parse_c22_reg "10.2_3".toList init_reg_info).2.bit_l = -1) ∧
    ((parse_c22_reg (hex 31 ++ ['.'] ++ decimal 2) init_reg_info
      = (0, { init_reg_info with phy := ((31 : Nat) : Int), reg := ((2 : Nat) : Int) }) ∧
     (parse_c22_reg (hex 31 ++ ['.'] ++ decimal 2) init_reg_info).2.bit_h = -1 ∧
     (parse_c22_reg (hex 31 ++ ['.'] ++ decimal 2) init_reg_info).2.bit_l = -1) ∧
    (parse_c22_reg (hex 31 ++ ['.'] ++ decimal 2 ++ ['_'] ++ decimal 3) init_reg_info
      = (0, { init_reg_info with phy := ((31 : Nat) : Int), reg := ((2 : Nat) : Int),
                                 page := ((3 : Nat) : Int) }) ∧
     (parse_c22_reg (hex 31 ++ ['.'] ++ decimal 2 ++ ['_'] ++ decimal 3)
        init_reg_info).2.bit_h = -1 ∧
     (parse_c22_reg (hex 31 ++ ['.'] ++ decimal 2 ++ ['_'] ++ decimal 3)
        init_reg_info).2.bit_l = -1)) :=
  ⟨by decide, by decide,
    parse_c22_reg_no_bits 31 2 3 (by decide) (by decide) (by decide)⟩

/-- A Clause-45 descriptor `P.D_R.H`: accepted exactly when `h ≤ 15`. -/
theorem parse_c45_reg_single_cases {P D R H : List Char} {p d r h : Nat} (ri : reg_info)
    (hP : IsNumeral 16 P p) (hD : IsNumeral 16 D d) (hR : IsNumeral 16 R r)
    (hH : IsNumeral 10 H h) (hp : p ≤ 31) (hd : d ≤ 31) (hr : r ≤ 0xffff) :
    parse_c45_reg (P ++ '.' :: (D ++ '_' :: (R ++ '.' :: H))) ri
      = if h ≤ 15 then
          (0, { ri with phy := (p : Int), dev := (d : Int), reg := (r : Int),
                        bit_h := (h : Int), bit_l := (h : Int) })
        else (-1, { ri with phy := (p : Int), dev := (d : Int), reg := (r : Int) }) := by
  have s1 : strchr (P ++ '.' :: (D ++ '_' :: (R ++ '.' :: H))) '.'
      = some ('.' :: (D ++ '_' :: (R ++ '.' :: H))) :=
    strchr_append (hP.no_sep (by norm_num)).1
  have g1 := get_number_numeral (Or.inr rfl) hP
    (SepHead.dot (D ++ '_' :: (R ++ '.' :: H))) ri.phy 0x1f (by norm_num) (by omega)
  have s2 : strchr (D ++ '_' :: (R ++ '.' :: H)) '_' = some ('_' :: (R ++ '.' :: H)) :=
    strchr_append (hD.no_sep (by norm_num)).2.1
  have g2 := get_number_numeral (Or.inr rfl) hD
    (SepHead.underscore (R ++ '.' :: H)) ri.dev 0x1f (by norm_num) (by omega)
  have s3 : strchr (R ++ '.' :: H) '.' = some ('.' :: H) :=
    strchr_append (hR.no_sep (by norm_num)).1
  have g3 := get_number_numeral (Or.inr rfl) hR (SepHead.dot H) ri.reg 0xffff (by norm_num)
    (by omega)
  have s4 : strchr H ':' = none := strchr_none (hH.no_sep (by norm_num)).2.2
  have g4 := get_number_numeral_end_cases (Or.inl rfl) hH ri.bit_h 15 (by norm_num)
    (by norm_num)
  by_cases hh : h ≤ 15
  · have : (h : Int) ≤ 15 := by omega
    rw [if_pos this] at g4
    simp [parse_c45_reg, s1, g1, s2, g2, s3, g3, s4, g4, hh]
  · have : ¬ (h : Int) ≤ 15 := by omega
    rw [if_neg this] at g4
    simp [parse_c45_reg, s1, g1, s2, g2, s3, g3, s4, g4, hh]

/-- C15: the two grammars validate different bit-index upper bounds: for every
`n`, `parse_c22_reg` accepts `"0.0." ++ decimal(n)` exactly when `n ≤ 31` (then
`bit_h = bit_l = n`), and `parse_c45_reg` accepts `"0.0_0." ++ decimal(n)`
exactly when `n ≤ 15`; every `n` in `16..31` is accepted by the first and
rejected by the second. -/
theorem bit_index_upper_bounds (n : Nat) :
    ((parse_c22_reg ("0.0.".toList ++ decimal n) init_reg_info).1 = 0 ↔ n ≤ 31) ∧
    (n ≤ 31 →
      (parse_c22_reg ("0.0.".toList ++ decimal n) init_reg_info).2.bit_h = (n : Int) ∧
      (parse_c22_reg ("0.0.".toList ++ decimal n) init_reg_info).2.bit_l = (n : Int)) ∧
    ((parse_c45_reg ("0.0_0.".toList ++ decimal n) init_reg_info).1 = 0 ↔ n ≤ 15) ∧
    (16 ≤ n → n ≤ 31 →
      (parse_c22_reg ("0.0.".toList ++ decimal n) init_reg_info).1 = 0 ∧
      (parse_c45_reg ("0.0_0.".toList ++ decimal n) init_reg_info).1 ≠ 0) := by
  have z16 : IsNumeral 16 ['0'] 0 := hex_numeral 0
  have z10 : IsNumeral 10 ['0'] 0 := decimal_numeral 0
  have e22 : "0.0.".toList ++ decimal n = ['0'] ++ '.' :: (['0'] ++ '.' :: decimal n) := rfl
  have e45 : "0.0_0.".toList ++ decimal n
      = ['0'] ++ '.' :: (['0'] ++ '_' :: (['0'] ++ '.' :: decimal n)) := rfl
  have a : parse_c22_reg ("0.0.".toList ++ decimal n) init_reg_info
      = if n ≤ 31 then
          (0, { init_reg_info with phy := ((0 : Nat) : Int), reg := ((0 : Nat) : Int),
                                   bit_h := (n : Int), bit_l := (n : Int) })
        else (-1, { init_reg_info with phy := ((0 : Nat) : Int), reg := ((0 : Nat) : Int) }) := by
    rw [e22, parse_c22_reg_to_bits init_reg_info z16 z10 (by norm_num) (by norm_num),
      parse_c22_bits_single_cases _ (decimal_numeral n)]
  have b := parse_c45_reg_single_cases init_reg_info z16 z16 z16 (decimal_numeral n)
    (by norm_num) (by norm_num) (by norm_num)
  rw [← e45] at b
  rw [a, b]
  by_cases h31 : n ≤ 31
  · by_cases h15 : n ≤ 15
    · simp only [h31, h15, if_true]
      exact ⟨by simp, by simp, by simp, fun h16 _ => absurd h15 (by omega)⟩
    · simp only [h31, h15, if_true, if_false]
      exact ⟨by simp, by simp, by simp, by simp⟩
  · have h15 : ¬ n ≤ 15 := by omega
    simp only [h31, h15, if_false]
    exact ⟨by simp, by simp, by simp, fun _ h => h.elim⟩

/-- Instance of C15 at `n = 20`: `"0.0.20"` is accepted by `parse_c22_reg` and
`"0.0_0.20"` is rejected by `parse_c45_reg`. -/
theorem bit_index_upper_bounds_witness :
    (20 ≤ 31 ∧ 16 ≤ 20) ∧
    "0.0.".toList ++ decimal 20 = "0.0.20".toList ∧
    "0.0_0.".toList ++ decimal 20 = "0.0_0.20".toList ∧
    (parse_c22_reg ("0.0.".toList ++ decimal 20) init_reg_info).2.bit_h = ((20 : Nat) : Int) ∧
    (parse_c22_reg ("0.0.".toList ++ decimal 20) init_reg_info).2.bit_l = ((20 : Nat) : Int) ∧
    (parse_c22_reg ("0.0.".toList ++ decimal 20) init_reg_info).1 = 0 ∧
    (parse_c45_reg ("0.0_0.".toList ++ decimal 20) init_reg_info).1 ≠ 0 :=
  ⟨by decide, by decide, by decide,
    ((bit_index_upper_bounds 20).2.1 (by decide)).1,
    ((bit_index_upper_bounds 20).2.1 (by decide)).2,
    ((bit_index_upper_bounds 20).2.2.2 (by decide) (by decide)).1,
    ((bit_index_upper_bounds 20).2.2.2 (by decide) (by decide)).2⟩

/-- A Clause-45 descriptor `P.D_R.H:L` with both bits in `0..15`: accepted
exactly when `l ≤ h`. -/
theorem parse_c45_reg_pair_cases {P D R H L : List Char} {p d r h l : Nat} (ri : reg_info)
    (hP : IsNumeral 16 P p) (hD : IsNumeral 16 D d) (hR : IsNumeral 16 R r)
    (hH : IsNumeral 10 H h) (hL : IsNumeral 10 L l)
    (hp : p ≤ 31) (hd : d ≤ 31) (hr : r ≤ 0xffff) (hh : h ≤ 15) (hl : l ≤ 15) :
    parse_c45_reg (P ++ '.' :: (D ++ '_' :: (R ++ '.' :: (H ++ ':' :: L)))) ri
      = (if h < l then -1 else 0,
          { ri with phy := (p : Int), dev := (d : Int), reg := (r : Int),
                    bit_h := (h : Int), bit_l := (l : Int) }) := by
  have s1 : strchr (P ++ '.' :: (D ++ '_' :: (R ++ '.' :: (H ++ ':' :: L)))) '.'
      = some ('.' :: (D ++ '_' :: (R ++ '.' :: (H ++ ':' :: L)))) :=
    strchr_append (hP.no_sep (by norm_num)).1
  have g1 := get_number_numeral (Or.inr rfl) hP
    (SepHead.dot (D ++ '_' :: (R ++ '.' :: (H ++ ':' :: L)))) ri.phy 0x1f (by norm_num)
    (by omega)
  have s2 : strchr (D ++ '_' :: (R ++ '.' :: (H ++ ':' :: L))) '_'
      = some ('_' :: (R ++ '.' :: (H ++ ':' :: L))) :=
    strchr_append (hD.no_sep (by norm_num)).2.1
  have g2 := get_number_numeral (Or.inr rfl) hD
    (SepHead.underscore (R ++ '.' :: (H ++ ':' :: L))) ri.dev 0x1f (by norm_num) (by omega)
  have s3 : strchr (R ++ '.' :: (H ++ ':' :: L)) '.' = some ('.' :: (H ++ ':' :: L)) :=
    strchr_append (hR.no_sep (by norm_num)).1
  have g3 := get_number_numeral (Or.inr rfl) hR (SepHead.dot (H ++ ':' :: L)) ri.reg 0xffff
    (by norm_num) (by omega)
  have s4 : strchr (H ++ ':' :: L) ':' = some (':' :: L) :=
    strchr_append (hH.no_sep (by norm_num)).2.2
  have g4 := get_number_numeral (Or.inl rfl) hH (SepHead.colon L) ri.bit_h 15 (by norm_num)
    (by omega)
  have g5 := get_number_numeral_end (Or.inl rfl) hL ri.bit_l 15 (by norm_num) (by omega)
  by_cases hlt : h < l
  · have : (h : Int) < (l : Int) := by omega
    simp [parse_c45_reg, s1, g1, s2, g2, s3, g3, s4, g4, g5, hlt, this]
  · have : ¬ (h : Int) < (l : Int) := by omega
    simp [parse_c45_reg, s1, g1, s2, g2, s3, g3, s4, g4, g5, hlt, this]

/-- C16 (as amended): the Clause-45 parser enforces the bit order.  For
`p, d ≤ 31`, `r ≤ 0xffff` and bits `h, l ≤ 15`, `parse_c45_reg` on
`hex(p).hex(d)_hex(r).decimal(h):decimal(l)` stores `bit_h = h` and `bit_l = l`
and returns -1 when `h < l`, and 0 when `l ≤ h`. -/
theorem parse_c45_reg_bit_order (p d r h l : Nat) (hp : p ≤ 31) (hd : d ≤ 31)
    (hr : r ≤ 0xffff) (hh : h ≤ 15) (hl : l ≤ 15) :
    (h < l →
      parse_c45_reg (hex p ++ ['.'] ++ hex d ++ ['_'] ++ hex r ++ ['.'] ++ decimal h ++ [':']
          ++ decimal l) init_reg_info
        = (-1, { init_reg_info with phy := (p : Int), dev := (d : Int), reg := (r : Int),
                                    bit_h := (h : Int), bit_l := (l : Int) })) ∧
    (l ≤ h →
      parse_c45_reg (hex p ++ ['.'] ++ hex d ++ ['_'] ++ hex r ++ ['.'] ++ decimal h ++ [':']
          ++ decimal l) init_reg_info
        = (0, { init_reg_info with phy := (p : Int), dev := (d : Int), reg := (r : Int),
                                   bit_h := (h : Int), bit_l := (l : Int) })) := by
  have key := parse_c45_reg_pair_cases init_reg_info (hex_numeral p) (hex_numeral d)
    (hex_numeral r) (decimal_numeral h) (decimal_numeral l) hp hd hr hh hl
  have e : hex p ++ ['.'] ++ hex d ++ ['_'] ++ hex r ++ ['.'] ++ decimal h ++ [':'] ++ decimal l
      = hex p ++ '.' :: (hex d ++ '_' :: (hex r ++ '.' :: (decimal h ++ ':' :: decimal l))) := by
    simp
  rw [e, key]
  constructor
  · intro hlt
    rw [if_pos hlt]
  · intro hle
    rw [if_neg (by omega)]

/-- Instances of C16 as amended: `"1f.2_3.3:7"` is rejected, `"1f.2_3.7:3"` is
accepted. -/
theorem parse_c45_reg_bit_order_witness :
    (31 ≤ 31 ∧ 2 ≤ 31 ∧ 3 ≤ 0xffff ∧ 3 ≤ 15 ∧ 7 ≤ 15 ∧ 3 < 7) ∧
    hex 31 ++ ['.'] ++ hex 2 ++ ['_'] ++ hex 3 ++ ['.'] ++ decimal 3 ++ [':'] ++ decimal 7
      = "1f.2_3.3:7".toList ∧
    parse_c45_reg (hex 31 ++ ['.'] ++ hex 2 ++ ['_'] ++ hex 3 ++ ['.'] ++ decimal 3 ++ [':']
        ++ decimal 7) init_reg_info
      = (-1, { init_reg_info with phy := ((31 : Nat) : Int), dev := ((2 : Nat) : Int),
                                  reg := ((3 : Nat) : Int), bit_h := ((3 : Nat) : Int),
                                  bit_l := ((7 : Nat) : Int) }) ∧
    parse_c45_reg (hex 31 ++ ['.'] ++ hex 2 ++ ['_'] ++ hex 3 ++ ['.'] ++ decimal 7 ++ [':']
        ++ decimal 3) init_reg_info
      = (0, { init_reg_info with phy := ((31 : Nat) : Int), dev := ((2 : Nat) : Int),
                                 reg := ((3 : Nat) : Int), bit_h := ((7 : Nat) : Int),
                                 bit_l := ((3 : Nat) : Int) }) :=
  ⟨by decide, by decide,
    (parse_c45_reg_bit_order 31 2 3 3 7 (by decide) (by decide) (by decide) (by decide)
      (by decide)).1 (by decide),
    (parse_c45_reg_bit_order 31 2 3 7 3 (by decide) (by decide) (by decide) (by decide)
      (by decide)).2 (by decide)⟩

/-- C16 (as stated) fails: on `"0.0_0.3:7"`, with `bit_h = 3 < bit_l = 7`,
`parse_c45_reg` returns -1, not 0. -/
theorem parse_c45_reg_rejects_inverted :
    hex 0 ++ ['.'] ++ hex 0 ++ ['_'] ++ hex 0 ++ ['.'] ++ decimal 3 ++ [':'] ++ decimal 7
      = "0.0_0.3:7".toList ∧
    (parse_c45_reg "0.0_0.3:7".toList init_reg_info).1 = -1 ∧
    ¬ (parse_c45_reg "0.0_0.3:7".toList init_reg_info).1 = 0 := by
  decide

/-! ## Fields the parsers leave alone -/

theorem parse_c22_bits_frame (ptr : List Char) (ri : reg_info) :
    (parse_c22_bits ptr ri).2.is_write = ri.is_write ∧
    (parse_c22_bits ptr ri).2.is_c22 = ri.is_c22 ∧
    (parse_c22_bits ptr ri).2.page = ri.page ∧
    (parse_c22_bits ptr ri).2.data = ri.data := by
  simp only [parse_c22_bits]
  split
  · exact ⟨rfl, rfl, rfl, rfl⟩
  · split
    · exact ⟨rfl, rfl, rfl, rfl⟩
    · split <;> exact ⟨rfl, rfl, rfl, rfl⟩

theorem parse_c22_reg_frame (s : List Char) (ri : reg_info) :
    (parse_c22_reg s ri).2.is_write = ri.is_write ∧
    (parse_c22_reg s ri).2.is_c22 = ri.is_c22 ∧
    (parse_c22_reg s ri).2.data = ri.data := by
  simp only [parse_c22_reg]
  split
  · exact ⟨rfl, rfl, rfl⟩
  · split
    · exact ⟨rfl, rfl, rfl⟩
    · split
      · exact ⟨rfl, rfl, rfl⟩
      · split
        · exact ⟨rfl, rfl, rfl⟩
        · split
          · split
            · exact ⟨rfl, rfl, rfl⟩
            · split
              · exact ⟨rfl, rfl, rfl⟩
              · exact ⟨(parse_c22_bits_frame _ _).1, (parse_c22_bits_frame _ _).2.1,
                  (parse_c22_bits_frame _ _).2.2.2⟩
          · exact ⟨(parse_c22_bits_frame _ _).1, (parse_c22_bits_frame _ _).2.1,
              (parse_c22_bits_frame _ _).2.2.2⟩

theorem parse_c45_reg_frame (s : List Char) (ri : reg_info) :
    (parse_c45_reg s ri).2.is_write = ri.is_write ∧
    (parse_c45_reg s ri).2.is_c22 = ri.is_c22 ∧
    (parse_c45_reg s ri).2.page = ri.page ∧
    (parse_c45_reg s ri).2.data = ri.data := by
  simp only [parse_c45_reg]
  repeat' split
  all_goals exact ⟨rfl, rfl, rfl, rfl⟩

theorem parse_tail_frame (w : Int × reg_info) (s : List Char) :
    (if w.1 ≠ 0 then ((-1 : Int), w.2)
      else if w.2.is_c22 ≠ 0 then parse_c22_reg s w.2 else parse_c45_reg s w.2).2.is_write
        = w.2.is_write ∧
    (if w.1 ≠ 0 then ((-1 : Int), w.2)
      else if w.2.is_c22 ≠ 0 then parse_c22_reg s w.2 else parse_c45_reg s w.2).2.data
        = w.2.data ∧
    (if w.1 ≠ 0 then ((-1 : Int), w.2)
      else if w.2.is_c22 ≠ 0 then parse_c22_reg s w.2 else parse_c45_reg s w.2).2.is_c22
        = w.2.is_c22 := by
  by_cases h1 : w.1 ≠ 0
  · rw [if_pos h1]
    exact ⟨rfl, rfl, rfl⟩
  · rw [if_neg h1]
    by_cases h2 : w.2.is_c22 ≠ 0
    · rw [if_pos h2]
      exact ⟨(parse_c22_reg_frame _ _).1, (parse_c22_reg_frame _ _).2.2,
        (parse_c22_reg_frame _ _).2.1⟩
    · rw [if_neg h2]
      exact ⟨(parse_c45_reg_frame _ _).1, (parse_c45_reg_frame _ _).2.2.2,
        (parse_c45_reg_frame _ _).2.1⟩

theorem parse_reg_info_is_write (argv : List (List Char)) :
    (parse_reg_info argv).2.is_write = 0 := by
  unfold parse_reg_info
  dsimp only
  rw [(parse_tail_frame _ _).1]
  by_cases hw : argv.getD 2 [] = "write".toList
  · rw [if_pos hw]
  · rw [if_neg hw]
    by_cases hc : argv.getD 1 [] = "c22".toList
    · rw [if_pos hc]
      rfl
    · rw [if_neg hc]
      rfl

/-- C19: `parse_reg_info` always leaves the write-mode flag cleared: for every
argument vector, `ri.is_write` is 0 when it returns, also when the subcommand
is `write` and the data token parses. -/
theorem parse_reg_info_clears_is_write (argv : List (List Char)) :
    (parse_reg_info argv).2.is_write = 0 ∧
    (argv.getD 2 [] = "write".toList →
      (get_number (argv.getD 5 []) [] 0 0 0 0xffff).1 = 0 →
      (parse_reg_info argv).2.is_write = 0 ∧
      (parse_reg_info argv).2.data = (get_number (argv.getD 5 []) [] 0 0 0 0xffff).2) := by
  refine ⟨parse_reg_info_is_write argv, fun hw _ => ⟨parse_reg_info_is_write argv, ?_⟩⟩
  unfold parse_reg_info
  dsimp only
  rw [(parse_tail_frame _ _).2.1, if_pos hw]
  by_cases hc : argv.getD 1 [] = "c22".toList
  · rw [if_pos hc]
    rfl
  · rw [if_neg hc]
    rfl

/-- Instance of C19: `mdio c22 write eth0 1.2 0x20b` parses with `data = 0x20b`
and `is_write = 0`. -/
theorem parse_reg_info_clears_is_write_witness :
    (["mdio".toList, "c22".toList, "write".toList, "eth0".toList, "1.2".toList,
        "0x20b".toList].getD 2 [] = "write".toList ∧
      (get_number (["mdio".toList, "c22".toList, "write".toList, "eth0".toList, "1.2".toList,
        "0x20b".toList].getD 5 []) [] 0 0 0 0xffff).1 = 0) ∧
    (parse_reg_info ["mdio".toList, "c22".toList, "write".toList, "eth0".toList,
        "1.2".toList, "0x20b".toList]).1 = 0 ∧
    (parse_reg_info ["mdio".toList, "c22".toList, "write".toList, "eth0".toList,
        "1.2".toList, "0x20b".toList]).2.data = 0x20b ∧
    (parse_reg_info ["mdio".toList, "c22".toList, "write".toList, "eth0".toList,
        "1.2".toList, "0x20b".toList]).2.is_write = 0 :=
  ⟨⟨by decide, by decide⟩, by decide, by decide,
    ((parse_reg_info_clears_is_write ["mdio".toList, "c22".toList, "write".toList,
      "eth0".toList, "1.2".toList, "0x20b".toList]).2 (by decide) (by decide)).1⟩

/-! ## Page select -/

theorem strchr_getD_eq_dropWhile (s : List Char) (c : Char) :
    (strchr s c).getD [] = s.dropWhile (fun x => decide (x ≠ c)) := by
  induction s with
  | nil => rfl
  | cons x xs ih =>
    by_cases hx : x = c
    · simp [strchr, List.dropWhile, hx]
    · simp only [strchr, hx, if_false, List.dropWhile, ne_eq, not_false_eq_true, decide_True]
      exact ih

theorem strpbrk_getD_eq_dropWhile (s acc : List Char) :
    (strpbrk s acc).getD [] = s.dropWhile (fun x => decide (x ∉ acc)) := by
  induction s with
  | nil => rfl
  | cons x xs ih =>
    by_cases hx : x ∈ acc
    · simp [strpbrk, List.dropWhile, hx]
    · simp only [strpbrk, hx, if_false, List.dropWhile, not_false_eq_true, decide_True]
      exact ih

theorem afterRegToken_eq (s : List Char) :
    afterRegToken s = (strpbrk ((strchr s '.').getD []).tail ['_', '.']).getD [] := by
  unfold afterRegToken
  rw [strpbrk_getD_eq_dropWhile, strchr_getD_eq_dropWhile]

theorem parse_c22_reg_page (s : List Char) (ri ri' : reg_info)
    (h : parse_c22_reg s ri = (0, ri')) :
    (hasPageClause s → 0 ≤ ri'.page ∧ ri'.page ≤ 255) ∧
    (¬ hasPageClause s → ri'.page = ri.page) := by
  unfold hasPageClause
  rw [afterRegToken_eq]
  simp only [parse_c22_reg] at h
  cases hs : strchr s '.' with
  | none => simp [hs] at h
  | some p1 =>
    simp only [hs, Option.getD_some] at h ⊢
    by_cases g1 : (get_number s p1 16 ri.phy 0 0x1f).1 = 0
    · simp only [g1, ne_eq, not_true_eq_false, if_false] at h
      by_cases g2 : (get_number p1.tail ((strpbrk p1.tail ['_', '.']).getD []) 10 ri.reg 0
          31).1 = 0
      · simp only [g2, ne_eq, not_true_eq_false, if_false] at h
        by_cases hp2 : (strpbrk p1.tail ['_', '.']).getD [] = []
        · simp only [hp2, if_true, Prod.mk.injEq, true_and] at h
          subst h
          simp [hp2]
        · simp only [hp2, if_false] at h
          by_cases hu : ((strpbrk p1.tail ['_', '.']).getD []).head? = some '_'
          · simp only [hu, if_true] at h
            refine ⟨fun _ => ?_, fun hn => absurd hu hn⟩
            rcases get_number_result ((strpbrk p1.tail ['_', '.']).getD []).tail
              ((strchr ((strpbrk p1.tail ['_', '.']).getD []).tail '.').getD []) 10 ri.page 255
              (by norm_num) (by norm_num) with g3 | ⟨v3, g3, hv3, hv3'⟩
            · simp [g3] at h
            · simp only [g3, ne_eq, not_true_eq_false, if_false] at h
              by_cases hp3 :
                  (strchr ((strpbrk p1.tail ['_', '.']).getD []).tail '.').getD [] = []
              · simp only [hp3, if_true, Prod.mk.injEq, true_and] at h
                subst h
                exact ⟨hv3, hv3'⟩
              · simp only [hp3, if_false] at h
                have := (parse_c22_bits_frame _ _).2.2.1.symm.trans (congrArg (·.2.page) h)
                simp only at this
                rw [← this]
                exact ⟨hv3, hv3'⟩
          · simp only [hu, if_false] at h
            refine ⟨fun hy => absurd hy hu, fun _ => ?_⟩
            have := (parse_c22_bits_frame _ _).2.2.1.symm.trans (congrArg (·.2.page) h)
            simp only at this
            rw [← this]
      · simp [g2] at h
    · simp [g1] at h

theorem parse_reg_info_page_c45 (argv : List (List Char))
    (hc : argv.getD 1 [] ≠ "c22".toList) : (parse_reg_info argv).2.page = -1 := by
  unfold parse_reg_info
  dsimp only
  rw [if_neg hc]
  by_cases hw : argv.getD 2 [] = "write".toList
  · rw [if_pos hw]
    dsimp only
    by_cases h1 : (get_number (argv.getD 5 []) [] 0 init_reg_info.data 0 0xffff).1 ≠ 0
    · rw [if_pos h1]
      rfl
    · rw [if_neg h1, if_neg (by decide), (parse_c45_reg_frame _ _).2.2.1]
      rfl
  · rw [if_neg hw, if_neg (by decide), if_neg (by decide), (parse_c45_reg_frame _ _).2.2.1]
    rfl

theorem main_c45_no_write {σ : Type} (t : Transport σ) (w : σ → Nat → Nat → Nat → Option σ)
    (argv : List (List Char)) (hc : argv.getD 1 [] ≠ "c22".toList) :
    main { t with write := w } argv = main t argv := by
  have hp := parse_reg_info_page_c45 argv hc
  have hw := parse_reg_info_is_write argv
  unfold main
  simp only [hp, hw, mdio_sock_read]
  rfl

/-- C18: page select is Clause-22 only.  `parse_c45_reg` never modifies `page`,
so from `init_reg_info` it stays -1 for every input; in Clause-45 mode
`parse_reg_info` leaves `page = -1`, the guard `ri.page >= 0` of `main` is
false, and the outcome of `main` does not depend on the transport's write.
After a successful `parse_c22_reg`, `page ≥ 0` holds exactly when the register
token is immediately followed by a `_PAGE` clause. -/
theorem page_select_clause22_only :
    (∀ (s : List Char) (ri : reg_info), (parse_c45_reg s ri).2.page = ri.page) ∧
    (∀ s : List Char, (parse_c45_reg s init_reg_info).2.page = -1) ∧
    (∀ argv : List (List Char), argv.getD 1 [] = "c45".toList →
      (parse_reg_info argv).2.page = -1 ∧ ¬ (parse_reg_info argv).2.page ≥ 0) ∧
    (∀ (regs : Regs) (w : Regs → Nat → Nat → Nat → Option Regs) (argv : List (List Char)),
      argv.getD 1 [] = "c45".toList →
      main { simTransport regs with write := w } argv = main (simTransport regs) argv) ∧
    (∀ s : List Char, (parse_c22_reg s init_reg_info).1 = 0 →
      (0 ≤ (parse_c22_reg s init_reg_info).2.page ↔ hasPageClause s)) := by
  have hne : ∀ argv : List (List Char), argv.getD 1 [] = "c45".toList →
      argv.getD 1 [] ≠ "c22".toList := by
    intro argv h
    rw [h]
    decide
  refine ⟨fun s ri => (parse_c45_reg_frame s ri).2.2.1,
    fun s => (parse_c45_reg_frame s init_reg_info).2.2.1, ?_, ?_, ?_⟩
  · intro argv h
    have := parse_reg_info_page_c45 argv (hne argv h)
    rw [this]
    exact ⟨rfl, by decide⟩
  · intro regs w argv h
    exact main_c45_no_write _ w argv (hne argv h)
  · intro s h
    obtain ⟨h1, h2⟩ := parse_c22_reg_page s init_reg_info _ (Prod.ext h rfl)
    constructor
    · intro hp
      by_contra hn
      have := h2 hn
      rw [this] at hp
      exact absurd hp (by decide)
    · intro hp
      exact (h1 hp).1

/-- Instances of C18: `"1f.2_3"` has a page clause and parses with `page = 3`;
`"1f.2.3"` has none and keeps `page = -1`; `mdio c45 read eth0 1.2_3` leaves
`page = -1`. -/
theorem page_select_clause22_only_witness :
    ((parse_c22_reg "1f.2_3".toList init_reg_info).1 = 0 ∧
      (parse_c22_reg "1f.2.3".toList init_reg_info).1 = 0 ∧
      ["mdio".toList, "c45".toList, "read".toList, "eth0".toList, "1.2_3".toList].getD 1 []
        = "c45".toList) ∧
    (parse_c22_reg "1f.2_3".toList init_reg_info).2.page = 3 ∧
    (parse_c22_reg "1f.2.3".toList init_reg_info).2.page = -1 ∧
    (0 ≤ (parse_c22_reg "1f.2_3".toList init_reg_info).2.page ↔ hasPageClause "1f.2_3".toList) ∧
    (0 ≤ (parse_c22_reg "1f.2.3".toList init_reg_info).2.page ↔ hasPageClause "1f.2.3".toList) ∧
    ((parse_reg_info
        ["mdio".toList, "c45".toList, "read".toList, "eth0".toList, "1.2_3".toList]).2.page = -1 ∧
     ¬ (parse_reg_info
        ["mdio".toList, "c45".toList, "read".toList, "eth0".toList, "1.2_3".toList]).2.page ≥ 0) :=
  ⟨⟨by decide, by decide, by decide⟩, by decide, by decide,
    page_select_clause22_only.2.2.2.2 "1f.2_3".toList (by decide),
    page_select_clause22_only.2.2.2.2 "1f.2.3".toList (by decide),
    page_select_clause22_only.2.2.1 _ (by decide)⟩

/-! ## Length of the rendered string -/

theorem bin2str_loop_length_value (v : Nat) (li : Int) (idx : List Nat) :
    ∀ (n : Nat) (i sc : Int) (sci : Nat),
      (bin2str_loop v li idx n i sc sci).length
        = (bin2str_loop 0 li idx n i sc sci).length := by
  intro n
  induction n with
  | zero => intro i sc sci; rfl
  | succ n ih =>
    intro i sc sci
    simp only [bin2str_loop]
    split
    · split
      · simp only [List.length_cons]
        rw [ih]
      · simp only [List.length_cons]
        rw [ih]
    · rfl

theorem bin2str_length_aux : ∀ hi : Fin 16, ∀ li : Fin 16,
    (bin2str 0 (hi.val : Int) (li.val : Int)).length ≤ 19 := by
  decide

/-- For bit indices up to 15 the string of `bin2str` has at most 19 characters
(16 bits and 3 spaces). -/
theorem bin2str_length_le (v hi li : Nat) (hh : hi ≤ 15) (hl : li ≤ 15) :
    (bin2str v hi li).length ≤ 19 := by
  have h0 := bin2str_length_aux ⟨hi, by omega⟩ ⟨li, by omega⟩
  simp only at h0
  unfold bin2str at h0 ⊢
  rw [bin2str_loop_length_value]
  exact h0

/-- For every descriptor `parse_c45_reg` accepts with a bit range, the string
`bin2str` renders fits the 32-byte buffer of `main`. -/
theorem bin2str_fits_c45 (s : List Char) (v : Nat)
    (h : (parse_c45_reg s init_reg_info).1 = 0)
    (hb : 0 ≤ (parse_c45_reg s init_reg_info).2.bit_h) :
    (bin2str v (parse_c45_reg s init_reg_info).2.bit_h
      (parse_c45_reg s init_reg_info).2.bit_l).length ≤ 31 := by
  obtain ⟨_, _, _, _, h5⟩ := parse_c45_reg_ok s init_reg_info _ (Prod.ext h rfl)
  rcases h5 with ⟨e, _⟩ | ⟨⟨a1, a2⟩, ⟨b1, b2⟩, _⟩
  · rw [e] at hb
    exact absurd hb (by decide)
  · obtain ⟨x, hx⟩ := Int.eq_ofNat_of_zero_le a1
    obtain ⟨y, hy⟩ := Int.eq_ofNat_of_zero_le b1
    rw [hx] at a2 ⊢
    rw [hy] at b2 ⊢
    have := bin2str_length_le v x y (by omega) (by omega)
    omega

/-- C20: evaluation at the Clause-22 descriptor `"0.0.31:0"`: `parse_c22_reg`
accepts it with `bit_h = 31`, `bit_l = 0`, and for the register value `0x5a5a`
`bin2str` renders 35 characters, more than the 31 that fit the 32-byte buffer
of `main` with the NUL; `mdio c22 read eth0 0.0.31:0` reaches that call. -/
theorem bin2str_exceeds_buffer :
    parse_c22_reg "0.0.31:0".toList init_reg_info
      = (0, { init_reg_info with phy := 0, reg := 0, bit_h := 31, bit_l := 0 }) ∧
    bin2str 0x5a5a 31 0 = "00000000000000000101 1010 0101 1010".toList ∧
    (bin2str 0x5a5a 31 0).length = 35 ∧
    ¬ (bin2str 0x5a5a 31 0).length ≤ 31 ∧
    (main (simTransport (fun _ _ => 0x5a5a))
        ["mdio".toList, "c22".toList, "read".toList, "eth0".toList,
          "0.0.31:0".toList]).stdout
      = "5a5a \"00000000000000000101 1010 0101 1010\"\n".toList := by
  decide

end Mdio
